import Mathlib

/-!
Verification of the detection-evaluation core of the aivision_studio
repository: the metrics library (`src/lib/metrics.ts`) and the batch
evaluation orchestrator (the `useEvaluationRunner` hook).

Modelling conventions.
* JavaScript `number` is modelled by the exact rationals `ℚ` (the
  algorithms and the specification reason about exact arithmetic; the
  division guards of the source are carried over literally, and `ℚ`
  division by zero yields `0`, matching the guarded branches).
* A TypeScript object reference to a ground-truth box is modelled by its
  index in the ground-truth list (the source tracks the same identity in
  its `bestIndex` / `usedGroundTruths` variables).
* The JS `Set<number>` of used ground-truth indices is a `Finset ℕ`.
* `Array.prototype.sort` is stable (ES2019); it is modelled by a stable
  insertion sort on the same comparison key `(confidence ?? 0)`.
* `a?.b || 0` on a possibly-missing field is `Option.getD 0`.
* Console logging in the source has no effect on any returned value and
  is omitted.
-/

/-- Geometric part of a box: center coordinates and extents, the fields
`calculateIoU` reads from either a prediction or a ground-truth box. -/
structure Rect where
  x : ℚ
  y : ℚ
  width : ℚ
  height : ℚ
deriving DecidableEq

/-- A predicted bounding box (`BoundingBox` in `metrics.ts`).  The source
field `class` is a reserved word in Lean and is rendered `className`. -/
structure BoundingBox where
  x : ℚ
  y : ℚ
  width : ℚ
  height : ℚ
  className : String
  confidence : Option ℚ
deriving DecidableEq

/-- A ground-truth box (`GroundTruthBox` in `metrics.ts`). -/
structure GroundTruthBox where
  x : ℚ
  y : ℚ
  width : ℚ
  height : ℚ
  className : String
deriving DecidableEq

def BoundingBox.toRect (b : BoundingBox) : Rect :=
  ⟨b.x, b.y, b.width, b.height⟩

def GroundTruthBox.toRect (b : GroundTruthBox) : Rect :=
  ⟨b.x, b.y, b.width, b.height⟩

/-- Clipped rectangular intersection area of two center-form boxes
(the `intersectionWidth * intersectionHeight` computation of
`calculateIoU`, lines 59-77 of `metrics.ts`). -/
def intersectionArea (box1 box2 : Rect) : ℚ :=
  max 0 (min (box1.x + box1.width / 2) (box2.x + box2.width / 2) -
         max (box1.x - box1.width / 2) (box2.x - box2.width / 2)) *
  max 0 (min (box1.y + box1.height / 2) (box2.y + box2.height / 2) -
         max (box1.y - box1.height / 2) (box2.y - box2.height / 2))

/-- Union area `box1Area + box2Area - intersectionArea` (line 82 of
`metrics.ts`). -/
def unionArea (box1 box2 : Rect) : ℚ :=
  box1.width * box1.height + box2.width * box2.height - intersectionArea box1 box2

/-- `calculateIoU` of `metrics.ts`: intersection over union with the
explicit zero-union guard of line 85. -/
def calculateIoU (box1 box2 : Rect) : ℚ :=
  if unionArea box1 box2 = 0 then 0 else intersectionArea box1 box2 / unionArea box1 box2

lemma intersectionArea_comm (a b : Rect) : intersectionArea a b = intersectionArea b a := by
  unfold intersectionArea
  rw [min_comm (a.x + a.width / 2), max_comm (a.x - a.width / 2),
      min_comm (a.y + a.height / 2), max_comm (a.y - a.height / 2)]

lemma unionArea_comm (a b : Rect) : unionArea a b = unionArea b a := by
  unfold unionArea
  rw [intersectionArea_comm]
  ring

lemma calculateIoU_comm (a b : Rect) : calculateIoU a b = calculateIoU b a := by
  unfold calculateIoU
  rw [intersectionArea_comm, unionArea_comm]

lemma intersectionArea_nonneg (a b : Rect) : 0 ≤ intersectionArea a b :=
  mul_nonneg (le_max_left _ _) (le_max_left _ _)

/-- When the clipped intersection is positive, it is bounded by each box
area and by the union area, and the union area is positive. -/
lemma intersectionArea_le_unionArea (a b : Rect) (h : 0 < intersectionArea a b) :
    intersectionArea a b ≤ unionArea a b ∧ 0 < unionArea a b := by
  set iw := min (a.x + a.width / 2) (b.x + b.width / 2) -
      max (a.x - a.width / 2) (b.x - b.width / 2) with hiw
  set ih := min (a.y + a.height / 2) (b.y + b.height / 2) -
      max (a.y - a.height / 2) (b.y - b.height / 2) with hih
  have hI : intersectionArea a b = max 0 iw * max 0 ih := rfl
  have hiw0 : 0 < max 0 iw := by
    rcases le_or_lt (max 0 iw) 0 with hle | hlt
    · exfalso
      have : intersectionArea a b ≤ 0 := by
        rw [hI]
        exact mul_nonpos_of_nonpos_of_nonneg hle (le_max_left _ _)
      linarith
    · exact hlt
  have hih0 : 0 < max 0 ih := by
    rcases le_or_lt (max 0 ih) 0 with hle | hlt
    · exfalso
      have : intersectionArea a b ≤ 0 := by
        rw [hI]
        exact mul_nonpos_of_nonneg_of_nonpos (le_max_left _ _) hle
      linarith
    · exact hlt
  have hiw' : max 0 iw = iw := max_eq_right (by by_contra hc; push_neg at hc; simp [max_eq_left hc.le] at hiw0)
  have hih' : max 0 ih = ih := max_eq_right (by by_contra hc; push_neg at hc; simp [max_eq_left hc.le] at hih0)
  have hiwa : iw ≤ a.width := by
    have h1 : min (a.x + a.width / 2) (b.x + b.width / 2) ≤ a.x + a.width / 2 := min_le_left _ _
    have h2 : a.x - a.width / 2 ≤ max (a.x - a.width / 2) (b.x - b.width / 2) := le_max_left _ _
    rw [hiw]; linarith
  have hiwb : iw ≤ b.width := by
    have h1 : min (a.x + a.width / 2) (b.x + b.width / 2) ≤ b.x + b.width / 2 := min_le_right _ _
    have h2 : b.x - b.width / 2 ≤ max (a.x - a.width / 2) (b.x - b.width / 2) := le_max_right _ _
    rw [hiw]; linarith
  have hiha : ih ≤ a.height := by
    have h1 : min (a.y + a.height / 2) (b.y + b.height / 2) ≤ a.y + a.height / 2 := min_le_left _ _
    have h2 : a.y - a.height / 2 ≤ max (a.y - a.height / 2) (b.y - b.height / 2) := le_max_left _ _
    rw [hih]; linarith
  have hihb : ih ≤ b.height := by
    have h1 : min (a.y + a.height / 2) (b.y + b.height / 2) ≤ b.y + b.height / 2 := min_le_right _ _
    have h2 : b.y - b.height / 2 ≤ max (a.y - a.height / 2) (b.y - b.height / 2) := le_max_right _ _
    rw [hih]; linarith
  rw [hiw'] at hiw0
  rw [hih'] at hih0
  have hIA : intersectionArea a b = iw * ih := by rw [hI, hiw', hih']
  have hA : iw * ih ≤ a.width * a.height :=
    mul_le_mul hiwa hiha hih0.le (by linarith)
  have hB : iw * ih ≤ b.width * b.height :=
    mul_le_mul hiwb hihb hih0.le (by linarith)
  constructor
  · unfold unionArea
    rw [hIA] at h ⊢
    nlinarith
  · unfold unionArea
    rw [hIA] at h ⊢
    nlinarith

lemma calculateIoU_nonneg (a b : Rect) : 0 ≤ calculateIoU a b := by
  unfold calculateIoU
  split
  · exact le_refl 0
  · rcases lt_or_eq_of_le (intersectionArea_nonneg a b) with h | h
    · exact div_nonneg h.le (intersectionArea_le_unionArea a b h).2.le
    · rw [← h, zero_div]

lemma calculateIoU_le_one (a b : Rect) : calculateIoU a b ≤ 1 := by
  unfold calculateIoU
  split
  · norm_num
  · rcases lt_or_eq_of_le (intersectionArea_nonneg a b) with h | h
    · obtain ⟨h1, h2⟩ := intersectionArea_le_unionArea a b h
      exact (div_le_one h2).mpr h1
    · rw [← h, zero_div]; norm_num

lemma calculateIoU_self (a : Rect) (hw : 0 < a.width) (hh : 0 < a.height) :
    calculateIoU a a = 1 := by
  have hI : intersectionArea a a = a.width * a.height := by
    unfold intersectionArea
    rw [min_self, max_self, min_self, max_self]
    have h1 : a.x + a.width / 2 - (a.x - a.width / 2) = a.width := by ring
    have h2 : a.y + a.height / 2 - (a.y - a.height / 2) = a.height := by ring
    rw [h1, h2, max_eq_right hw.le, max_eq_right hh.le]
  have hU : unionArea a a = a.width * a.height := by
    unfold unionArea
    rw [hI]; ring
  unfold calculateIoU
  rw [hU, hI, if_neg (by positivity)]
  exact div_self (by positivity)

/-- C9: `calculateIoU` is `1` on any box with positive extents paired with
itself (the data model of the spec requires positive width/height for a
valid box), is symmetric, always lies in `[0, 1]`, and is `0` whenever the
union area is `0`. -/
theorem calculateIoU_spec (a b : Rect) :
    (0 < a.width → 0 < a.height → calculateIoU a a = 1) ∧
    calculateIoU a b = calculateIoU b a ∧
    (0 ≤ calculateIoU a b ∧ calculateIoU a b ≤ 1) ∧
    (unionArea a b = 0 → calculateIoU a b = 0) :=
  ⟨calculateIoU_self a, calculateIoU_comm a b,
   ⟨calculateIoU_nonneg a b, calculateIoU_le_one a b⟩,
   fun h => by unfold calculateIoU; rw [if_pos h]⟩

/-- Witness for C9 at concrete boxes: a unit box at the origin and a
disjoint unit box. -/
theorem calculateIoU_spec_witness :
    calculateIoU ⟨0, 0, 1, 1⟩ ⟨0, 0, 1, 1⟩ = 1 ∧
    calculateIoU ⟨0, 0, 1, 1⟩ ⟨5, 5, 1, 1⟩ = calculateIoU ⟨5, 5, 1, 1⟩ ⟨0, 0, 1, 1⟩ ∧
    (0 ≤ calculateIoU ⟨0, 0, 1, 1⟩ ⟨5, 5, 1, 1⟩ ∧ calculateIoU ⟨0, 0, 1, 1⟩ ⟨5, 5, 1, 1⟩ ≤ 1) ∧
    (unionArea ⟨0, 0, 1, 1⟩ ⟨5, 5, 1, 1⟩ = 0 → calculateIoU ⟨0, 0, 1, 1⟩ ⟨5, 5, 1, 1⟩ = 0) := by
  have h := calculateIoU_spec ⟨0, 0, 1, 1⟩ ⟨5, 5, 1, 1⟩
  exact ⟨h.1 (by norm_num) (by norm_num), h.2.1, h.2.2.1, h.2.2.2⟩

/-- One entry of the assignment returned by `matchPredictions`.  The TS
record stores an object reference `groundTruth`; object identity is
modelled by the additional index `groundTruthIdx` (the source's
`bestIndex`, recorded in `usedGroundTruths`). -/
structure MatchedPrediction where
  prediction : BoundingBox
  groundTruth : Option GroundTruthBox
  groundTruthIdx : Option ℕ
  iou : ℚ
  isCorrect : Bool
deriving DecidableEq

/-- The inner loop of `matchPredictions` (lines 134-158 of `metrics.ts`):
scan the ground-truth boxes from index `i` upward, skipping used indices
and class mismatches, keeping the strictly best IoU seen so far. -/
def findBestAux (p : BoundingBox) (used : Finset ℕ) :
    ℕ → List GroundTruthBox → ℚ × Option ℕ → ℚ × Option ℕ
  | _, [], acc => acc
  | i, gt :: rest, acc =>
      findBestAux p used (i + 1) rest
        (if i ∈ used then acc
         else if gt.className ≠ p.className then acc
         else if acc.1 < calculateIoU p.toRect gt.toRect then
           (calculateIoU p.toRect gt.toRect, some i)
         else acc)

/-- Best unused same-class ground truth for one prediction: the pair
`(bestIoU, bestIndex)` of the source, with `bestIndex = -1 / bestMatch =
null` rendered as `none`. -/
def findBest (p : BoundingBox) (gts : List GroundTruthBox) (used : Finset ℕ) :
    ℚ × Option ℕ :=
  findBestAux p used 0 gts (0, none)

/-- The main loop of `matchPredictions` (lines 128-172): process the
confidence-sorted predictions in order, matching each against its best
unused ground truth when the IoU threshold is met. -/
def matchFold (gts : List GroundTruthBox) (iouThreshold : ℚ) :
    List BoundingBox → Finset ℕ → List MatchedPrediction × Finset ℕ
  | [], used => ([], used)
  | p :: ps, used =>
      let best := findBest p gts used
      let isCorrect : Bool := decide (iouThreshold ≤ best.1) && best.2.isSome
      let used' := if isCorrect then
          (match best.2 with
           | some k => insert k used
           | none => used)
        else used
      let m : MatchedPrediction :=
        ⟨p, if isCorrect then best.2.bind gts.get? else none,
         if isCorrect then best.2 else none, best.1, isCorrect⟩
      let rest := matchFold gts iouThreshold ps used'
      (m :: rest.1, rest.2)

/-- Sort key of the source's comparator `(b.confidence || 0) -
(a.confidence || 0)`. -/
def sortKey (p : BoundingBox) : ℚ := p.confidence.getD 0

/-- Stable descending insertion: a new element goes in front of the first
element whose key is not larger, so equal keys keep their original
order (ES2019 sort stability). -/
def insertDesc (p : BoundingBox) : List BoundingBox → List BoundingBox
  | [] => [p]
  | q :: qs => if sortKey q ≤ sortKey p then p :: q :: qs else q :: insertDesc p qs

/-- Stable sort by descending `(confidence ?? 0)`, modelling
`[...predictions].sort((a, b) => (b.confidence || 0) - (a.confidence || 0))`. -/
def sortByConfidenceDesc : List BoundingBox → List BoundingBox
  | [] => []
  | p :: ps => insertDesc p (sortByConfidenceDesc ps)

/-- `matchPredictions` of `metrics.ts`. -/
def matchPredictions (predictions : List BoundingBox) (groundTruths : List GroundTruthBox)
    (iouThreshold : ℚ) : List MatchedPrediction :=
  (matchFold groundTruths iouThreshold (sortByConfidenceDesc predictions) ∅).1

/-- Number of true-positive entries (`matches.filter(m => m.isCorrect).length`). -/
def tpCount (ms : List MatchedPrediction) : ℕ := (ms.filter (·.isCorrect)).length

lemma findBestAux_fst_mono (p : BoundingBox) (used : Finset ℕ) :
    ∀ (l : List GroundTruthBox) (i : ℕ) (acc : ℚ × Option ℕ),
    acc.1 ≤ (findBestAux p used i l acc).1 := by
  intro l
  induction l with
  | nil => intro i acc; exact le_refl _
  | cons gt rest ih =>
    intro i acc
    simp only [findBestAux]
    refine le_trans ?_ (ih (i + 1) _)
    split_ifs with h1 h2 h3
    · exact le_refl _
    · exact le_refl _
    · exact le_of_lt h3
    · exact le_refl _

lemma findBestAux_origin (p : BoundingBox) (used : Finset ℕ) :
    ∀ (l : List GroundTruthBox) (i : ℕ) (acc : ℚ × Option ℕ),
    findBestAux p used i l acc = acc ∨
    ∃ j, ∃ hj : j < l.length, (i + j) ∉ used ∧
      (l.get ⟨j, hj⟩).className = p.className ∧
      (findBestAux p used i l acc).1 = calculateIoU p.toRect (l.get ⟨j, hj⟩).toRect ∧
      (findBestAux p used i l acc).2 = some (i + j) ∧
      acc.1 < (findBestAux p used i l acc).1 := by
  intro l
  induction l with
  | nil => intro i acc; exact Or.inl rfl
  | cons gt rest ih =>
    intro i acc
    simp only [findBestAux]
    split_ifs with h1 h2 h3
    · rcases ih (i + 1) acc with h | ⟨j, hj, hju, hjc, e1, e2, e3⟩
      · exact Or.inl h
      · exact Or.inr ⟨j + 1, by simpa using hj, by
          have : i + (j + 1) = i + 1 + j := by omega
          rw [this]; exact hju, hjc, e1, by
          have : i + (j + 1) = i + 1 + j := by omega
          rw [this]; exact e2, e3⟩
    · rcases ih (i + 1) acc with h | ⟨j, hj, hju, hjc, e1, e2, e3⟩
      · exact Or.inl h
      · exact Or.inr ⟨j + 1, by simpa using hj, by
          have : i + (j + 1) = i + 1 + j := by omega
          rw [this]; exact hju, hjc, e1, by
          have : i + (j + 1) = i + 1 + j := by omega
          rw [this]; exact e2, e3⟩
    · -- the head updates the accumulator
      push_neg at h2
      rcases ih (i + 1) (calculateIoU p.toRect gt.toRect, some i) with h | ⟨j, hj, hju, hjc, e1, e2, e3⟩
      · refine Or.inr ⟨0, by simp, by simpa using h1, by simpa using h2, ?_, ?_, ?_⟩
        · rw [h]; simp
        · rw [h]; simp
        · rw [h]; exact h3
      · refine Or.inr ⟨j + 1, by simpa using hj, by
          have : i + (j + 1) = i + 1 + j := by omega
          rw [this]; exact hju, hjc, e1, by
          have : i + (j + 1) = i + 1 + j := by omega
          rw [this]; exact e2, lt_trans h3 e3⟩
    · rcases ih (i + 1) acc with h | ⟨j, hj, hju, hjc, e1, e2, e3⟩
      · exact Or.inl h
      · exact Or.inr ⟨j + 1, by simpa using hj, by
          have : i + (j + 1) = i + 1 + j := by omega
          rw [this]; exact hju, hjc, e1, by
          have : i + (j + 1) = i + 1 + j := by omega
          rw [this]; exact e2, e3⟩

lemma findBestAux_ub (p : BoundingBox) (used : Finset ℕ) :
    ∀ (l : List GroundTruthBox) (i : ℕ) (acc : ℚ × Option ℕ)
      (j : ℕ) (hj : j < l.length), (i + j) ∉ used →
      (l.get ⟨j, hj⟩).className = p.className →
      calculateIoU p.toRect (l.get ⟨j, hj⟩).toRect ≤ (findBestAux p used i l acc).1 := by
  intro l
  induction l with
  | nil => intro i acc j hj; exact absurd hj (by simp)
  | cons gt rest ih =>
    intro i acc j hj hju hjc
    simp only [findBestAux]
    match j with
    | 0 =>
      simp only [List.get] at hjc ⊢
      rw [Nat.add_zero] at hju
      rw [if_neg hju, if_neg (by simpa using hjc)]
      split_ifs with h3
      · exact findBestAux_fst_mono p used rest (i + 1) _
      · push_neg at h3
        exact le_trans h3 (findBestAux_fst_mono p used rest (i + 1) _)
    | j' + 1 =>
      have hj' : j' < rest.length := by simpa using hj
      have hidx : i + (j' + 1) = i + 1 + j' := by omega
      rw [hidx] at hju
      exact ih (i + 1) _ j' hj' hju hjc

lemma findBestAux_first (p : BoundingBox) (used : Finset ℕ) :
    ∀ (l : List GroundTruthBox) (i : ℕ) (acc : ℚ × Option ℕ),
    (∀ h, acc.2 = some h → h < i) →
    ∀ hidx, (findBestAux p used i l acc).2 = some hidx →
    ∀ (j : ℕ) (hj : j < l.length), i + j < hidx → (i + j) ∉ used →
      (l.get ⟨j, hj⟩).className = p.className →
      calculateIoU p.toRect (l.get ⟨j, hj⟩).toRect < (findBestAux p used i l acc).1 := by
  intro l
  induction l with
  | nil => intro i acc _ hidx _ j hj; exact absurd hj (by simp)
  | cons gt rest ih =>
    intro i acc hacc hidx hr j hj hlt hju hjc
    simp only [findBestAux] at hr ⊢
    match j with
    | 0 =>
      simp only [List.get] at hjc ⊢
      rw [Nat.add_zero] at hju hlt
      rw [if_neg hju, if_neg (by simpa using hjc)] at hr ⊢
      by_cases h3 : acc.1 < calculateIoU p.toRect gt.toRect
      · -- head became the running best; the final result must improve on it
        rw [if_pos h3] at hr ⊢
        rcases findBestAux_origin p used rest (i + 1)
            (calculateIoU p.toRect gt.toRect, some i) with h | ⟨_, _, _, _, _, _, e3⟩
        · rw [h] at hr
          simp at hr
          omega
        · exact e3
      · push_neg at h3
        rw [if_neg (not_lt.mpr h3)] at hr ⊢
        rcases findBestAux_origin p used rest (i + 1) acc with h | ⟨_, _, _, _, _, _, e3⟩
        · rw [h] at hr
          have := hacc hidx hr
          omega
        · exact lt_of_le_of_lt h3 e3
    | j' + 1 =>
      have hj' : j' < rest.length := by simpa using hj
      have hidx' : i + (j' + 1) = i + 1 + j' := by omega
      rw [hidx'] at hju hlt
      have hacc' : ∀ h, ((if i ∈ used then acc
          else if gt.className ≠ p.className then acc
          else if acc.1 < calculateIoU p.toRect gt.toRect then
            (calculateIoU p.toRect gt.toRect, some i)
          else acc) : ℚ × Option ℕ).2 = some h → h < i + 1 := by
        intro h
        split_ifs with h1 h2 h3
        · intro he; have := hacc h he; omega
        · intro he; have := hacc h he; omega
        · intro he; simp at he; omega
        · intro he; have := hacc h he; omega
      exact ih (i + 1) _ hacc' hidx hr j' hj' hlt hju hjc

lemma findBest_some (p : BoundingBox) (gts : List GroundTruthBox) (used : Finset ℕ)
    (k : ℕ) (hk : (findBest p gts used).2 = some k) :
    ∃ hlt : k < gts.length, k ∉ used ∧ (gts.get ⟨k, hlt⟩).className = p.className ∧
      (findBest p gts used).1 = calculateIoU p.toRect (gts.get ⟨k, hlt⟩).toRect ∧
      0 < (findBest p gts used).1 := by
  rcases findBestAux_origin p used gts 0 (0, none) with h | ⟨j, hj, hju, hjc, e1, e2, e3⟩
  · rw [findBest, h] at hk
    exact absurd hk (by simp)
  · rw [findBest] at hk
    rw [e2] at hk
    have hjk : j = k := by
      simpa using hk
    subst hjk
    rw [Nat.zero_add] at hju
    exact ⟨hj, hju, hjc, e1, e3⟩

lemma findBest_none (p : BoundingBox) (gts : List GroundTruthBox) (used : Finset ℕ)
    (hk : (findBest p gts used).2 = none) : (findBest p gts used).1 = 0 := by
  rcases findBestAux_origin p used gts 0 (0, none) with h | ⟨j, hj, hju, hjc, e1, e2, e3⟩
  · rw [findBest, h]
  · rw [findBest] at hk
    rw [e2] at hk
    exact absurd hk (by simp)

lemma findBest_ub (p : BoundingBox) (gts : List GroundTruthBox) (used : Finset ℕ)
    (j : ℕ) (hj : j < gts.length) (hju : j ∉ used)
    (hjc : (gts.get ⟨j, hj⟩).className = p.className) :
    calculateIoU p.toRect (gts.get ⟨j, hj⟩).toRect ≤ (findBest p gts used).1 := by
  have := findBestAux_ub p used gts 0 (0, none) j hj (by simpa using hju) hjc
  exact this

lemma findBest_first (p : BoundingBox) (gts : List GroundTruthBox) (used : Finset ℕ)
    (k : ℕ) (hk : (findBest p gts used).2 = some k)
    (j : ℕ) (hj : j < gts.length) (hjk : j < k) (hju : j ∉ used)
    (hjc : (gts.get ⟨j, hj⟩).className = p.className) :
    calculateIoU p.toRect (gts.get ⟨j, hj⟩).toRect < (findBest p gts used).1 := by
  have := findBestAux_first p used gts 0 (0, none) (by simp) k hk j hj
    (by simpa using hjk) (by simpa using hju) hjc
  exact this

/-- Removing elements from the used set cannot change the chosen ground
truth when that ground truth remains free: if the run with the smaller
used set picks `k` and `k` is also free in the larger used set, the run
with the larger used set picks exactly `k` with the same IoU. -/
lemma findBest_subset (p : BoundingBox) (gts : List GroundTruthBox)
    (usedSmall usedBig : Finset ℕ) (hsub : usedSmall ⊆ usedBig)
    (k : ℕ) (hk : (findBest p gts usedSmall).2 = some k) (hkb : k ∉ usedBig) :
    (findBest p gts usedBig).2 = some k ∧
    (findBest p gts usedBig).1 = (findBest p gts usedSmall).1 := by
  obtain ⟨hklt, hkus, hkc, hkval, hkpos⟩ := findBest_some p gts usedSmall k hk
  have hub : calculateIoU p.toRect (gts.get ⟨k, hklt⟩).toRect ≤ (findBest p gts usedBig).1 :=
    findBest_ub p gts usedBig k hklt hkb hkc
  -- the big-used run cannot come up empty
  rcases hcase : (findBest p gts usedBig).2 with _ | h
  · exfalso
    have h0 := findBest_none p gts usedBig hcase
    rw [h0] at hub
    rw [hkval] at hkpos
    linarith
  · obtain ⟨hhlt, hhus, hhc, hhval, hhpos⟩ := findBest_some p gts usedBig h hcase
    have hhns : h ∉ usedSmall := fun hmem => hhus (hsub hmem)
    have hub' : calculateIoU p.toRect (gts.get ⟨h, hhlt⟩).toRect ≤ (findBest p gts usedSmall).1 :=
      findBest_ub p gts usedSmall h hhlt hhns hhc
    have hveq : (findBest p gts usedBig).1 = (findBest p gts usedSmall).1 := by
      rw [← hkval] at hub
      rw [← hhval] at hub'
      exact le_antisymm hub' hub
    have hhk : h = k := by
      rcases lt_trichotomy h k with hlt | heq | hgt
      · exfalso
        have := findBest_first p gts usedSmall k hk h hhlt hlt hhns hhc
        rw [← hhval, hveq] at this
        exact lt_irrefl _ this
      · exact heq
      · exfalso
        have := findBest_first p gts usedBig h hcase k hklt hgt hkb hkc
        rw [← hkval, ← hveq] at this
        exact lt_irrefl _ this
    exact ⟨by rw [hhk], hveq⟩

lemma matchFold_cons_correct (gts : List GroundTruthBox) (t : ℚ) (p : BoundingBox)
    (ps : List BoundingBox) (used : Finset ℕ) (k : ℕ)
    (hk : (findBest p gts used).2 = some k) (ht : t ≤ (findBest p gts used).1) :
    matchFold gts t (p :: ps) used =
      (⟨p, gts.get? k, some k, (findBest p gts used).1, true⟩ ::
         (matchFold gts t ps (insert k used)).1,
       (matchFold gts t ps (insert k used)).2) := by
  simp only [matchFold, hk, ht]
  simp

lemma matchFold_cons_incorrect (gts : List GroundTruthBox) (t : ℚ) (p : BoundingBox)
    (ps : List BoundingBox) (used : Finset ℕ)
    (h : ¬ t ≤ (findBest p gts used).1 ∨ (findBest p gts used).2 = none) :
    matchFold gts t (p :: ps) used =
      (⟨p, none, none, (findBest p gts used).1, false⟩ :: (matchFold gts t ps used).1,
       (matchFold gts t ps used).2) := by
  rcases h with h | h
  · simp only [matchFold, h]
    simp
  · simp only [matchFold, h]
    simp

lemma matchFold_used_subset (gts : List GroundTruthBox) (t : ℚ) :
    ∀ (ps : List BoundingBox) (used : Finset ℕ),
    used ⊆ (matchFold gts t ps used).2 := by
  intro ps
  induction ps with
  | nil => intro used; exact Finset.Subset.refl _
  | cons p ps ih =>
    intro used
    by_cases ht : t ≤ (findBest p gts used).1
    · rcases hk : (findBest p gts used).2 with _ | k
      · rw [matchFold_cons_incorrect gts t p ps used (Or.inr hk)]
        exact ih used
      · rw [matchFold_cons_correct gts t p ps used k hk ht]
        exact (Finset.subset_insert k used).trans (ih (insert k used))
    · rw [matchFold_cons_incorrect gts t p ps used (Or.inl ht)]
      exact ih used

lemma matchFold_isCorrect_eq_isSome (gts : List GroundTruthBox) (t : ℚ) :
    ∀ (ps : List BoundingBox) (used : Finset ℕ),
    ∀ m ∈ (matchFold gts t ps used).1, m.groundTruthIdx.isSome = m.isCorrect := by
  intro ps
  induction ps with
  | nil => intro used m hm; exact absurd hm (by simp [matchFold])
  | cons p ps ih =>
    intro used m hm
    by_cases ht : t ≤ (findBest p gts used).1
    · rcases hk : (findBest p gts used).2 with _ | k
      · rw [matchFold_cons_incorrect gts t p ps used (Or.inr hk)] at hm
        rcases List.mem_cons.mp hm with h | h
        · rw [h]; rfl
        · exact ih used m h
      · rw [matchFold_cons_correct gts t p ps used k hk ht] at hm
        rcases List.mem_cons.mp hm with h | h
        · rw [h]; rfl
        · exact ih (insert k used) m h
    · rw [matchFold_cons_incorrect gts t p ps used (Or.inl ht)] at hm
      rcases List.mem_cons.mp hm with h | h
      · rw [h]; rfl
      · exact ih used m h

lemma matchFold_card (gts : List GroundTruthBox) (t : ℚ) :
    ∀ (ps : List BoundingBox) (used : Finset ℕ),
    (matchFold gts t ps used).2.card = used.card + tpCount (matchFold gts t ps used).1 := by
  intro ps
  induction ps with
  | nil => intro used; simp [matchFold, tpCount]
  | cons p ps ih =>
    intro used
    by_cases ht : t ≤ (findBest p gts used).1
    · rcases hk : (findBest p gts used).2 with _ | k
      · rw [matchFold_cons_incorrect gts t p ps used (Or.inr hk)]
        simp only [tpCount, List.filter_cons]
        norm_num
        exact ih used
      · rw [matchFold_cons_correct gts t p ps used k hk ht]
        have hknew : k ∉ used := (findBest_some p gts used k hk).choose_spec.1
        simp only [tpCount, List.filter_cons]
        norm_num
        rw [ih (insert k used), Finset.card_insert_of_not_mem hknew, tpCount]
        omega
    · rw [matchFold_cons_incorrect gts t p ps used (Or.inl ht)]
      simp only [tpCount, List.filter_cons]
      norm_num
      exact ih used

/-- Ground-truth indices referenced by an assignment (the non-null
`groundTruth` references, by identity). -/
def referencedIndices (ms : List MatchedPrediction) : List ℕ :=
  ms.filterMap (·.groundTruthIdx)

lemma matchFold_refs (gts : List GroundTruthBox) (t : ℚ) :
    ∀ (ps : List BoundingBox) (used : Finset ℕ),
    (referencedIndices (matchFold gts t ps used).1).Nodup ∧
    ∀ k ∈ referencedIndices (matchFold gts t ps used).1,
      k ∉ used ∧ k < gts.length ∧ k ∈ (matchFold gts t ps used).2 := by
  intro ps
  induction ps with
  | nil => intro used; constructor
           · simp [matchFold, referencedIndices]
           · intro k hk; exact absurd hk (by simp [matchFold, referencedIndices])
  | cons p ps ih =>
    intro used
    by_cases ht : t ≤ (findBest p gts used).1
    · rcases hk : (findBest p gts used).2 with _ | k
      · rw [matchFold_cons_incorrect gts t p ps used (Or.inr hk)]
        simpa [referencedIndices] using ih used
      · rw [matchFold_cons_correct gts t p ps used k hk ht]
        obtain ⟨hklt, hkus, -, -, -⟩ := findBest_some p gts used k hk
        obtain ⟨ihnd, ihmem⟩ := ih (insert k used)
        have hrefs : referencedIndices
            (⟨p, gts.get? k, some k, (findBest p gts used).1, true⟩ ::
              (matchFold gts t ps (insert k used)).1) =
            k :: referencedIndices (matchFold gts t ps (insert k used)).1 := by
          simp [referencedIndices]
        rw [hrefs]
        constructor
        · refine List.nodup_cons.mpr ⟨?_, ihnd⟩
          intro hmem
          exact (ihmem k hmem).1 (Finset.mem_insert_self k used)
        · intro j hj
          rcases List.mem_cons.mp hj with h | h
          · rw [h]
            exact ⟨hkus, hklt,
              matchFold_used_subset gts t ps (insert k used) (Finset.mem_insert_self k used)⟩
          · obtain ⟨h1, h2, h3⟩ := ihmem j h
            exact ⟨fun hju => h1 (Finset.mem_insert_of_mem hju), h2, h3⟩
    · rw [matchFold_cons_incorrect gts t p ps used (Or.inl ht)]
      simpa [referencedIndices] using ih used

/-- Key monotonicity invariant: running the greedy loop at a higher IoU
threshold from a smaller used set keeps the used set smaller throughout. -/
lemma matchFold_used_mono (gts : List GroundTruthBox) (t t' : ℚ) (htt : t ≤ t') :
    ∀ (ps : List BoundingBox) (usedHi usedLo : Finset ℕ), usedHi ⊆ usedLo →
    (matchFold gts t' ps usedHi).2 ⊆ (matchFold gts t ps usedLo).2 := by
  intro ps
  induction ps with
  | nil => intro usedHi usedLo hsub; simpa [matchFold] using hsub
  | cons p ps ih =>
    intro usedHi usedLo hsub
    have hlo_sub : usedLo ⊆ (matchFold gts t (p :: ps) usedLo).2 :=
      matchFold_used_subset gts t (p :: ps) usedLo
    by_cases ht' : t' ≤ (findBest p gts usedHi).1
    · rcases hk : (findBest p gts usedHi).2 with _ | k
      · -- no match at the higher threshold
        rw [matchFold_cons_incorrect gts t' p ps usedHi (Or.inr hk)]
        by_cases htl : t ≤ (findBest p gts usedLo).1
        · rcases hkl : (findBest p gts usedLo).2 with _ | k'
          · rw [matchFold_cons_incorrect gts t p ps usedLo (Or.inr hkl)]
            exact ih usedHi usedLo hsub
          · rw [matchFold_cons_correct gts t p ps usedLo k' hkl htl]
            exact ih usedHi (insert k' usedLo) (hsub.trans (Finset.subset_insert k' usedLo))
        · rw [matchFold_cons_incorrect gts t p ps usedLo (Or.inl htl)]
          exact ih usedHi usedLo hsub
      · -- the higher-threshold run matches k
        rw [matchFold_cons_correct gts t' p ps usedHi k hk ht']
        by_cases hkl : k ∈ usedLo
        · -- k already used in the low run: insert is absorbed
          have hsub' : insert k usedHi ⊆ usedLo := Finset.insert_subset hkl hsub
          by_cases htl : t ≤ (findBest p gts usedLo).1
          · rcases hkl2 : (findBest p gts usedLo).2 with _ | k'
            · rw [matchFold_cons_incorrect gts t p ps usedLo (Or.inr hkl2)]
              exact ih (insert k usedHi) usedLo hsub'
            · rw [matchFold_cons_correct gts t p ps usedLo k' hkl2 htl]
              exact ih (insert k usedHi) (insert k' usedLo)
                (hsub'.trans (Finset.subset_insert k' usedLo))
          · rw [matchFold_cons_incorrect gts t p ps usedLo (Or.inl htl)]
            exact ih (insert k usedHi) usedLo hsub'
        · -- k free in the low run: the low run must match exactly k too
          obtain ⟨hsome, hval⟩ := findBest_subset p gts usedHi usedLo hsub k hk hkl
          have htl : t ≤ (findBest p gts usedLo).1 := by
            rw [hval]
            exact le_trans htt ht'
          rw [matchFold_cons_correct gts t p ps usedLo k hsome htl]
          exact ih (insert k usedHi) (insert k usedLo) (Finset.insert_subset_insert k hsub)
    · -- no match at the higher threshold (below threshold)
      rw [matchFold_cons_incorrect gts t' p ps usedHi (Or.inl ht')]
      by_cases htl : t ≤ (findBest p gts usedLo).1
      · rcases hkl : (findBest p gts usedLo).2 with _ | k'
        · rw [matchFold_cons_incorrect gts t p ps usedLo (Or.inr hkl)]
          exact ih usedHi usedLo hsub
        · rw [matchFold_cons_correct gts t p ps usedLo k' hkl htl]
          exact ih usedHi (insert k' usedLo) (hsub.trans (Finset.subset_insert k' usedLo))
      · rw [matchFold_cons_incorrect gts t p ps usedLo (Or.inl htl)]
        exact ih usedHi usedLo hsub

lemma tpCount_eq_card (gts : List GroundTruthBox) (t : ℚ) (ps : List BoundingBox) :
    tpCount (matchFold gts t ps ∅).1 = (matchFold gts t ps ∅).2.card := by
  have := matchFold_card gts t ps ∅
  simpa using this.symm

/-- C4: raising the IoU threshold cannot increase the number of
true-positive entries produced by `matchPredictions`. -/
theorem matchPredictions_tp_antitone (predictions : List BoundingBox)
    (groundTruths : List GroundTruthBox) (t t' : ℚ) (htt : t ≤ t') :
    tpCount (matchPredictions predictions groundTruths t') ≤
      tpCount (matchPredictions predictions groundTruths t) := by
  unfold matchPredictions
  rw [tpCount_eq_card, tpCount_eq_card]
  exact Finset.card_le_card
    (matchFold_used_mono groundTruths t t' htt (sortByConfidenceDesc predictions) ∅ ∅
      (Finset.Subset.refl ∅))

/-- Per-class metrics record (`ClassMetrics` in `metrics.ts`).  All numeric
fields are JS numbers, modelled as `ℚ`. -/
structure ClassMetrics where
  className : String
  truePositives : ℚ
  falsePositives : ℚ
  falseNegatives : ℚ
  precision : ℚ
  «recall» : ℚ
  f1Score : ℚ
  averageIoU : ℚ
  sampleCount : ℚ
deriving DecidableEq

/-- `calculateClassMetrics` of `metrics.ts` (lines 184-224). -/
def calculateClassMetrics (predictions : List BoundingBox)
    (groundTruths : List GroundTruthBox) (className : String) (iouThreshold : ℚ) :
    ClassMetrics :=
  let classPredictions := predictions.filter (·.className = className)
  let classGroundTruths := groundTruths.filter (·.className = className)
  let «matches» := matchPredictions classPredictions classGroundTruths iouThreshold
  let truePositives : ℚ := (tpCount «matches» : ℚ)
  let falsePositives : ℚ := ((«matches».filter (fun m => !m.isCorrect)).length : ℚ)
  let falseNegatives : ℚ := (classGroundTruths.length : ℚ) - truePositives
  let precision : ℚ := if 0 < truePositives + falsePositives then
      truePositives / (truePositives + falsePositives) else 0
  let «recall» : ℚ := if 0 < truePositives + falseNegatives then
      truePositives / (truePositives + falseNegatives) else 0
  let f1Score : ℚ := if 0 < precision + «recall» then
      2 * precision * «recall» / (precision + «recall») else 0
  let averageIoU : ℚ := if 0 < «matches».length then
      («matches».map (·.iou)).sum / («matches».length : ℚ) else 0
  ⟨className, truePositives, falsePositives, falseNegatives, precision, «recall»,
   f1Score, averageIoU, (classGroundTruths.length : ℚ)⟩

/-- Structural kernel of `uniqueFirst`: keep each element on first sight,
remembering what has been seen. -/
def uniqueFirstAux : List String → List String → List String
  | [], _ => []
  | a :: l, seen =>
      if a ∈ seen then uniqueFirstAux l seen
      else a :: uniqueFirstAux l (a :: seen)

/-- First-occurrence deduplication, modelling iteration order of a JS
`Set` built from a list (`Array.from(new Set([...]))`). -/
def uniqueFirst (l : List String) : List String := uniqueFirstAux l []

/-- Index of the first occurrence, modelling `Array.prototype.indexOf`
(`-1` rendered as `none`). -/
def idxFirst : List String → String → Option ℕ
  | [], _ => none
  | a :: l, s => if a = s then some 0 else (idxFirst l s).map (· + 1)

/-- Apply `f` to the entry at position `i`, used for the `matrix[a][b]++`
update. -/
def updateNth {α : Type} (f : α → α) : ℕ → List α → List α
  | _, [] => []
  | 0, a :: l => f a :: l
  | n + 1, a :: l => a :: updateNth f n l

/-- `buildConfusionMatrix` of `metrics.ts` (lines 229-262).  The loop over
unmatched ground truths (lines 250-259) has an empty body and is omitted. -/
def buildConfusionMatrix (predictions : List BoundingBox)
    (groundTruths : List GroundTruthBox) (classNames : List String)
    (iouThreshold : ℚ) : List (List ℚ) :=
  let n := classNames.length
  let matrix := List.replicate n (List.replicate n (0 : ℚ))
  let «matches» := matchPredictions predictions groundTruths iouThreshold
  «matches».foldl (fun m mp =>
    if mp.isCorrect then
      match mp.groundTruth with
      | some gt =>
          match idxFirst classNames gt.className, idxFirst classNames mp.prediction.className with
          | some actualIdx, some predictedIdx =>
              updateNth (updateNth (· + 1) predictedIdx) actualIdx m
          | _, _ => m
      | none => m
    else m) matrix

/-- Overall metrics record (`OverallMetrics` in `metrics.ts`). -/
structure OverallMetrics where
  precision : ℚ
  «recall» : ℚ
  f1Score : ℚ
  mAP : ℚ
  totalPredictions : ℕ
  totalGroundTruths : ℕ
  classMetrics : List ClassMetrics
  confusionMatrix : List (List ℚ)
  classNames : List String
deriving DecidableEq

/-- `calculateOverallMetrics` of `metrics.ts` (lines 267-310). -/
def calculateOverallMetrics (predictions : List BoundingBox)
    (groundTruths : List GroundTruthBox) (iouThreshold : ℚ) : OverallMetrics :=
  let classNames := uniqueFirst
    (predictions.map (·.className) ++ groundTruths.map (·.className))
  let classMetrics := classNames.map
    (fun c => calculateClassMetrics predictions groundTruths c iouThreshold)
  let totalTP := (classMetrics.map (·.truePositives)).sum
  let totalFP := (classMetrics.map (·.falsePositives)).sum
  let totalFN := (classMetrics.map (·.falseNegatives)).sum
  let precision : ℚ := if 0 < totalTP + totalFP then totalTP / (totalTP + totalFP) else 0
  let «recall» : ℚ := if 0 < totalTP + totalFN then totalTP / (totalTP + totalFN) else 0
  let f1Score : ℚ := if 0 < precision + «recall» then
      2 * precision * «recall» / (precision + «recall») else 0
  let mAP : ℚ := if 0 < classMetrics.length then
      (classMetrics.map (·.precision)).sum / (classMetrics.length : ℚ) else 0
  ⟨precision, «recall», f1Score, mAP, predictions.length, groundTruths.length,
   classMetrics, buildConfusionMatrix predictions groundTruths classNames iouThreshold,
   classNames⟩

/-- One record of the threshold sweep result. -/
structure ThresholdMetrics where
  threshold : ℚ
  precision : ℚ
  «recall» : ℚ
  f1Score : ℚ
deriving DecidableEq

/-- Default 9-point confidence grid of `calculateMetricsAtThresholds`. -/
def defaultThresholds : List ℚ :=
  [0.1, 0.2, 0.3, 0.4, 0.5, 0.6, 0.7, 0.8, 0.9]

/-- The confidence filter `(p.confidence || 0) >= threshold` used by the
sweep (line 322) and by the orchestrator's recompute. -/
def filterByConfidence (predictions : List BoundingBox) (threshold : ℚ) :
    List BoundingBox :=
  predictions.filter (fun p => threshold ≤ p.confidence.getD 0)

/-- `calculateMetricsAtThresholds` of `metrics.ts` (lines 315-332). -/
def calculateMetricsAtThresholds (predictions : List BoundingBox)
    (groundTruths : List GroundTruthBox) (thresholds : List ℚ)
    (iouThreshold : ℚ) : List ThresholdMetrics :=
  thresholds.map (fun threshold =>
    let metrics := calculateOverallMetrics (filterByConfidence predictions threshold)
      groundTruths iouThreshold
    ⟨threshold, metrics.precision, metrics.«recall», metrics.f1Score⟩)

/-- Result of `findOptimalThreshold`. -/
structure OptimalThreshold where
  threshold : ℚ
  f1Score : ℚ
deriving DecidableEq

/-- `findOptimalThreshold` of `metrics.ts` (lines 337-355): scan the sweep
curve keeping the strictly best F1, starting from `(0.5, 0)`. -/
def findOptimalThreshold (predictions : List BoundingBox)
    (groundTruths : List GroundTruthBox) (iouThreshold : ℚ) : OptimalThreshold :=
  let thresholdMetrics :=
    calculateMetricsAtThresholds predictions groundTruths defaultThresholds iouThreshold
  thresholdMetrics.foldl
    (fun best e => if best.f1Score < e.f1Score then ⟨e.threshold, e.f1Score⟩ else best)
    ⟨0.5, 0⟩

lemma matchFold_length (gts : List GroundTruthBox) (t : ℚ) :
    ∀ (ps : List BoundingBox) (used : Finset ℕ),
    (matchFold gts t ps used).1.length = ps.length := by
  intro ps
  induction ps with
  | nil => intro used; simp [matchFold]
  | cons p ps ih =>
    intro used
    by_cases ht : t ≤ (findBest p gts used).1
    · rcases hk : (findBest p gts used).2 with _ | k
      · rw [matchFold_cons_incorrect gts t p ps used (Or.inr hk)]
        simp [ih used]
      · rw [matchFold_cons_correct gts t p ps used k hk ht]
        simp [ih (insert k used)]
    · rw [matchFold_cons_incorrect gts t p ps used (Or.inl ht)]
      simp [ih used]

lemma insertDesc_length (p : BoundingBox) (l : List BoundingBox) :
    (insertDesc p l).length = l.length + 1 := by
  induction l with
  | nil => rfl
  | cons q qs ih =>
    simp only [insertDesc]
    split
    · simp
    · simp [ih]

lemma sortByConfidenceDesc_length (l : List BoundingBox) :
    (sortByConfidenceDesc l).length = l.length := by
  induction l with
  | nil => rfl
  | cons p ps ih => simp [sortByConfidenceDesc, insertDesc_length, ih]

lemma matchPredictions_length (predictions : List BoundingBox)
    (groundTruths : List GroundTruthBox) (t : ℚ) :
    (matchPredictions predictions groundTruths t).length = predictions.length := by
  unfold matchPredictions
  rw [matchFold_length, sortByConfidenceDesc_length]

lemma matchFold_used_range (gts : List GroundTruthBox) (t : ℚ) :
    ∀ (ps : List BoundingBox) (used : Finset ℕ),
    (matchFold gts t ps used).2 ⊆ used ∪ Finset.range gts.length := by
  intro ps
  induction ps with
  | nil => intro used; simp [matchFold]
  | cons p ps ih =>
    intro used
    by_cases ht : t ≤ (findBest p gts used).1
    · rcases hk : (findBest p gts used).2 with _ | k
      · rw [matchFold_cons_incorrect gts t p ps used (Or.inr hk)]
        exact ih used
      · rw [matchFold_cons_correct gts t p ps used k hk ht]
        obtain ⟨hklt, -, -, -, -⟩ := findBest_some p gts used k hk
        refine (ih (insert k used)).trans ?_
        intro x hx
        rcases Finset.mem_union.mp hx with hx | hx
        · rcases Finset.mem_insert.mp hx with hx | hx
          · exact Finset.mem_union_right _ (by simpa [hx] using Finset.mem_range.mpr hklt)
          · exact Finset.mem_union_left _ hx
        · exact Finset.mem_union_right _ hx
    · rw [matchFold_cons_incorrect gts t p ps used (Or.inl ht)]
      exact ih used

lemma tpCount_le_groundTruths (predictions : List BoundingBox)
    (groundTruths : List GroundTruthBox) (t : ℚ) :
    tpCount (matchPredictions predictions groundTruths t) ≤ groundTruths.length := by
  unfold matchPredictions
  rw [tpCount_eq_card]
  calc (matchFold groundTruths t (sortByConfidenceDesc predictions) ∅).2.card
      ≤ (Finset.range groundTruths.length).card := by
        apply Finset.card_le_card
        have := matchFold_used_range groundTruths t (sortByConfidenceDesc predictions) ∅
        simpa using this
    _ = groundTruths.length := Finset.card_range _

lemma tpCount_nil_groundTruths (ps : List BoundingBox) (t : ℚ) :
    tpCount (matchPredictions ps [] t) = 0 :=
  Nat.le_zero.mp (tpCount_le_groundTruths ps [] t)

/-- C2: the overall precision, recall and F1 of `calculateOverallMetrics`
are the micro-averages computed from the sums of the per-class TP/FP/FN
counts (each `0` when its denominator is `0`), and `mAP` is the arithmetic
mean of the per-class precision values (`0` when there are no classes). -/
theorem calculateOverallMetrics_micro_macro (predictions : List BoundingBox)
    (groundTruths : List GroundTruthBox) (iouThreshold : ℚ) :
    (calculateOverallMetrics predictions groundTruths iouThreshold).precision =
      (if 0 < ((calculateOverallMetrics predictions groundTruths iouThreshold).classMetrics.map (·.truePositives)).sum +
              ((calculateOverallMetrics predictions groundTruths iouThreshold).classMetrics.map (·.falsePositives)).sum then
        ((calculateOverallMetrics predictions groundTruths iouThreshold).classMetrics.map (·.truePositives)).sum /
          (((calculateOverallMetrics predictions groundTruths iouThreshold).classMetrics.map (·.truePositives)).sum +
           ((calculateOverallMetrics predictions groundTruths iouThreshold).classMetrics.map (·.falsePositives)).sum)
      else 0) ∧
    (calculateOverallMetrics predictions groundTruths iouThreshold).«recall» =
      (if 0 < ((calculateOverallMetrics predictions groundTruths iouThreshold).classMetrics.map (·.truePositives)).sum +
              ((calculateOverallMetrics predictions groundTruths iouThreshold).classMetrics.map (·.falseNegatives)).sum then
        ((calculateOverallMetrics predictions groundTruths iouThreshold).classMetrics.map (·.truePositives)).sum /
          (((calculateOverallMetrics predictions groundTruths iouThreshold).classMetrics.map (·.truePositives)).sum +
           ((calculateOverallMetrics predictions groundTruths iouThreshold).classMetrics.map (·.falseNegatives)).sum)
      else 0) ∧
    (calculateOverallMetrics predictions groundTruths iouThreshold).f1Score =
      (if 0 < (calculateOverallMetrics predictions groundTruths iouThreshold).precision +
              (calculateOverallMetrics predictions groundTruths iouThreshold).«recall» then
        2 * (calculateOverallMetrics predictions groundTruths iouThreshold).precision *
          (calculateOverallMetrics predictions groundTruths iouThreshold).«recall» /
          ((calculateOverallMetrics predictions groundTruths iouThreshold).precision +
           (calculateOverallMetrics predictions groundTruths iouThreshold).«recall»)
      else 0) ∧
    (calculateOverallMetrics predictions groundTruths iouThreshold).mAP =
      (if 0 < (calculateOverallMetrics predictions groundTruths iouThreshold).classMetrics.length then
        ((calculateOverallMetrics predictions groundTruths iouThreshold).classMetrics.map (·.precision)).sum /
          ((calculateOverallMetrics predictions groundTruths iouThreshold).classMetrics.length : ℚ)
      else 0) :=
  ⟨rfl, rfl, rfl, rfl⟩

/-- C10: counting invariants of `calculateClassMetrics`: TP + FP equals
the number of predictions of the class, FN equals the class ground-truth
count minus TP, and FN is never negative. -/
theorem calculateClassMetrics_counts (predictions : List BoundingBox)
    (groundTruths : List GroundTruthBox) (className : String) (iouThreshold : ℚ) :
    (calculateClassMetrics predictions groundTruths className iouThreshold).truePositives +
      (calculateClassMetrics predictions groundTruths className iouThreshold).falsePositives =
      ((predictions.filter (·.className = className)).length : ℚ) ∧
    (calculateClassMetrics predictions groundTruths className iouThreshold).falseNegatives =
      (calculateClassMetrics predictions groundTruths className iouThreshold).sampleCount -
      (calculateClassMetrics predictions groundTruths className iouThreshold).truePositives ∧
    0 ≤ (calculateClassMetrics predictions groundTruths className iouThreshold).falseNegatives := by
  have hlen : (matchPredictions (predictions.filter (·.className = className))
      (groundTruths.filter (·.className = className)) iouThreshold).length =
      (predictions.filter (·.className = className)).length :=
    matchPredictions_length _ _ _
  have hpart := List.length_eq_length_filter_add
    (l := matchPredictions (predictions.filter (·.className = className))
      (groundTruths.filter (·.className = className)) iouThreshold) (·.isCorrect)
  have htple := tpCount_le_groundTruths (predictions.filter (·.className = className))
    (groundTruths.filter (·.className = className)) iouThreshold
  refine ⟨?_, rfl, ?_⟩
  · show ((tpCount (matchPredictions (predictions.filter (·.className = className))
        (groundTruths.filter (·.className = className)) iouThreshold) : ℚ) +
      (((matchPredictions (predictions.filter (·.className = className))
        (groundTruths.filter (·.className = className)) iouThreshold).filter
          (fun m => !m.isCorrect)).length : ℚ) =
      ((predictions.filter (·.className = className)).length : ℚ))
    rw [← hlen, hpart]
    push_cast [tpCount]
    ring
  · show (0 : ℚ) ≤ ((groundTruths.filter (·.className = className)).length : ℚ) -
      (tpCount (matchPredictions (predictions.filter (·.className = className))
        (groundTruths.filter (·.className = className)) iouThreshold) : ℚ)
    have : (tpCount (matchPredictions (predictions.filter (·.className = className))
        (groundTruths.filter (·.className = className)) iouThreshold) : ℚ) ≤
        ((groundTruths.filter (·.className = className)).length : ℚ) := by
      exact_mod_cast htple
    linarith

lemma matchPredictions_nil_preds (gts : List GroundTruthBox) (t : ℚ) :
    matchPredictions [] gts t = [] := rfl

lemma calculateClassMetrics_zero_fields (predictions : List BoundingBox)
    (groundTruths : List GroundTruthBox) (className : String) (iouThreshold : ℚ)
    (h : tpCount (matchPredictions (predictions.filter (·.className = className))
      (groundTruths.filter (·.className = className)) iouThreshold) = 0) :
    (calculateClassMetrics predictions groundTruths className iouThreshold).precision = 0 ∧
    (calculateClassMetrics predictions groundTruths className iouThreshold).«recall» = 0 ∧
    (calculateClassMetrics predictions groundTruths className iouThreshold).f1Score = 0 := by
  have hp : (calculateClassMetrics predictions groundTruths className iouThreshold).precision = 0 := by
    show (if 0 < (tpCount (matchPredictions (predictions.filter (·.className = className))
          (groundTruths.filter (·.className = className)) iouThreshold) : ℚ) +
        (((matchPredictions (predictions.filter (·.className = className))
          (groundTruths.filter (·.className = className)) iouThreshold).filter
            (fun m => !m.isCorrect)).length : ℚ) then
        (tpCount (matchPredictions (predictions.filter (·.className = className))
          (groundTruths.filter (·.className = className)) iouThreshold) : ℚ) /
        ((tpCount (matchPredictions (predictions.filter (·.className = className))
          (groundTruths.filter (·.className = className)) iouThreshold) : ℚ) +
        (((matchPredictions (predictions.filter (·.className = className))
          (groundTruths.filter (·.className = className)) iouThreshold).filter
            (fun m => !m.isCorrect)).length : ℚ))
      else 0) = 0
    rw [h]
    split_ifs <;> simp
  have hr : (calculateClassMetrics predictions groundTruths className iouThreshold).«recall» = 0 := by
    show (if 0 < (tpCount (matchPredictions (predictions.filter (·.className = className))
          (groundTruths.filter (·.className = className)) iouThreshold) : ℚ) +
        (((groundTruths.filter (·.className = className)).length : ℚ) -
        (tpCount (matchPredictions (predictions.filter (·.className = className))
          (groundTruths.filter (·.className = className)) iouThreshold) : ℚ)) then
        (tpCount (matchPredictions (predictions.filter (·.className = className))
          (groundTruths.filter (·.className = className)) iouThreshold) : ℚ) /
        ((tpCount (matchPredictions (predictions.filter (·.className = className))
          (groundTruths.filter (·.className = className)) iouThreshold) : ℚ) +
        (((groundTruths.filter (·.className = className)).length : ℚ) -
        (tpCount (matchPredictions (predictions.filter (·.className = className))
          (groundTruths.filter (·.className = className)) iouThreshold) : ℚ)))
      else 0) = 0
    rw [h]
    split_ifs <;> simp
  refine ⟨hp, hr, ?_⟩
  have hf : (calculateClassMetrics predictions groundTruths className iouThreshold).f1Score =
      if 0 < (calculateClassMetrics predictions groundTruths className iouThreshold).precision +
          (calculateClassMetrics predictions groundTruths className iouThreshold).«recall» then
        2 * (calculateClassMetrics predictions groundTruths className iouThreshold).precision *
          (calculateClassMetrics predictions groundTruths className iouThreshold).«recall» /
          ((calculateClassMetrics predictions groundTruths className iouThreshold).precision +
           (calculateClassMetrics predictions groundTruths className iouThreshold).«recall»)
      else 0 := rfl
  rw [hf, hp, hr]
  norm_num

/-- C3: when no class name occurs both among the predictions and among
the ground truths (in particular when either list is empty), every class
gets precision = recall = F1 = 0, from `calculateClassMetrics` directly
and inside `calculateOverallMetrics`; being total functions over `ℚ`,
they return these zeros rather than raising any division error. -/
theorem aggregate_no_overlap_all_zero (predictions : List BoundingBox)
    (groundTruths : List GroundTruthBox) (iouThreshold : ℚ)
    (h : ∀ c, ¬(c ∈ predictions.map (·.className) ∧ c ∈ groundTruths.map (·.className))) :
    (∀ c, (calculateClassMetrics predictions groundTruths c iouThreshold).precision = 0 ∧
      (calculateClassMetrics predictions groundTruths c iouThreshold).«recall» = 0 ∧
      (calculateClassMetrics predictions groundTruths c iouThreshold).f1Score = 0) ∧
    (∀ cm ∈ (calculateOverallMetrics predictions groundTruths iouThreshold).classMetrics,
      cm.precision = 0 ∧ cm.«recall» = 0 ∧ cm.f1Score = 0) := by
  have hmain : ∀ c, (calculateClassMetrics predictions groundTruths c iouThreshold).precision = 0 ∧
      (calculateClassMetrics predictions groundTruths c iouThreshold).«recall» = 0 ∧
      (calculateClassMetrics predictions groundTruths c iouThreshold).f1Score = 0 := by
    intro c
    apply calculateClassMetrics_zero_fields
    rcases hcp : predictions.filter (·.className = c) with _ | ⟨p, ps⟩
    · rw [hcp, matchPredictions_nil_preds]
      rfl
    · have hcg : groundTruths.filter (·.className = c) = [] := by
        rcases hgg : groundTruths.filter (·.className = c) with _ | ⟨g, gs⟩
        · exact hgg
        · exfalso
          apply h c
          constructor
          · have hp : p ∈ predictions.filter (·.className = c) := by rw [hcp]; simp
            obtain ⟨hpm, hpc⟩ := List.mem_filter.mp hp
            exact List.mem_map.mpr ⟨p, hpm, by simpa using hpc⟩
          · have hg : g ∈ groundTruths.filter (·.className = c) := by rw [hgg]; simp
            obtain ⟨hgm, hgc⟩ := List.mem_filter.mp hg
            exact List.mem_map.mpr ⟨g, hgm, by simpa using hgc⟩
      rw [hcg]
      exact tpCount_nil_groundTruths _ _
  refine ⟨hmain, ?_⟩
  intro cm hcm
  have : ∃ c, cm = calculateClassMetrics predictions groundTruths c iouThreshold := by
    have hmem : cm ∈ (uniqueFirst (predictions.map (·.className) ++
        groundTruths.map (·.className))).map
        (fun c => calculateClassMetrics predictions groundTruths c iouThreshold) := hcm
    obtain ⟨c, -, hc⟩ := List.mem_map.mp hmem
    exact ⟨c, hc.symm⟩
  obtain ⟨c, rfl⟩ := this
  exact hmain c

/-- Number of ground-truth indices never referenced by the assignment. -/
def unreferencedCount (ms : List MatchedPrediction) (numGts : ℕ) : ℕ :=
  ((List.range numGts).filter (fun k => k ∉ referencedIndices ms)).length

lemma referencedIndices_length_eq_tpCount (ms : List MatchedPrediction)
    (h : ∀ m ∈ ms, m.groundTruthIdx.isSome = m.isCorrect) :
    (referencedIndices ms).length = tpCount ms := by
  induction ms with
  | nil => rfl
  | cons m ms ih =>
    have hm := h m (List.mem_cons_self m ms)
    have hrest : ∀ m' ∈ ms, m'.groundTruthIdx.isSome = m'.isCorrect :=
      fun m' hm' => h m' (List.mem_cons_of_mem m hm')
    rcases hidx : m.groundTruthIdx with _ | k
    · have hcor : m.isCorrect = false := by rw [← hm, hidx]; rfl
      simp [referencedIndices, List.filterMap_cons, hidx, tpCount, List.filter_cons, hcor]
      exact ih hrest
    · have hcor : m.isCorrect = true := by rw [← hm, hidx]; rfl
      simp [referencedIndices, List.filterMap_cons, hidx, tpCount, List.filter_cons, hcor]
      exact ih hrest

lemma unreferenced_count_eq (refs : List ℕ) (n : ℕ) (hnd : refs.Nodup)
    (hlt : ∀ k ∈ refs, k < n) :
    ((List.range n).filter (fun k => k ∉ refs)).length = n - refs.length := by
  have hpart := List.length_eq_length_filter_add
    (l := List.range n) (fun k => decide (k ∈ refs))
  have hin : ((List.range n).filter (fun k => decide (k ∈ refs))).length = refs.length := by
    have hperm : ((List.range n).filter (fun k => decide (k ∈ refs))).Perm refs := by
      refine (List.perm_ext_iff_of_nodup (List.Nodup.filter _ (List.nodup_range n)) hnd).mpr ?_
      intro a
      simp only [List.mem_filter, List.mem_range, decide_eq_true_eq]
      exact ⟨fun ha => ha.2, fun ha => ⟨hlt a ha, ha⟩⟩
    exact hperm.length_eq
  have hnot : ((List.range n).filter (fun k => k ∉ refs)).length =
      ((List.range n).filter (fun k => !decide (k ∈ refs))).length := by
    congr 1
    apply List.filter_congr
    intro a _
    simp [decide_not]
  rw [hnot]
  rw [List.length_range] at hpart
  omega

/-- C6: the assignment of `matchPredictions` is one-to-one — no two
entries reference the same ground-truth box, every reference points into
the ground-truth list — and, in `calculateClassMetrics`, the recorded
`falseNegatives` is exactly the number of ground-truth boxes of the class
left unreferenced. -/
theorem matchPredictions_one_to_one (predictions : List BoundingBox)
    (groundTruths : List GroundTruthBox) (iouThreshold : ℚ) :
    (referencedIndices (matchPredictions predictions groundTruths iouThreshold)).Nodup ∧
    (∀ k ∈ referencedIndices (matchPredictions predictions groundTruths iouThreshold),
      k < groundTruths.length) ∧
    ∀ c, (calculateClassMetrics predictions groundTruths c iouThreshold).falseNegatives =
      (unreferencedCount
        (matchPredictions (predictions.filter (·.className = c))
          (groundTruths.filter (·.className = c)) iouThreshold)
        (groundTruths.filter (·.className = c)).length : ℚ) := by
  obtain ⟨hnd, hmem⟩ :=
    matchFold_refs groundTruths iouThreshold (sortByConfidenceDesc predictions) ∅
  refine ⟨hnd, fun k hk => (hmem k hk).2.1, ?_⟩
  intro c
  obtain ⟨hnd', hmem'⟩ := matchFold_refs (groundTruths.filter (·.className = c)) iouThreshold
    (sortByConfidenceDesc (predictions.filter (·.className = c))) ∅
  have hiso := matchFold_isCorrect_eq_isSome (groundTruths.filter (·.className = c)) iouThreshold
    (sortByConfidenceDesc (predictions.filter (·.className = c))) ∅
  have hcount := unreferenced_count_eq
    (referencedIndices (matchPredictions (predictions.filter (·.className = c))
      (groundTruths.filter (·.className = c)) iouThreshold))
    (groundTruths.filter (·.className = c)).length hnd' (fun k hk => (hmem' k hk).2.1)
  have hlen := referencedIndices_length_eq_tpCount
    (matchPredictions (predictions.filter (·.className = c))
      (groundTruths.filter (·.className = c)) iouThreshold) hiso
  have htple := tpCount_le_groundTruths (predictions.filter (·.className = c))
    (groundTruths.filter (·.className = c)) iouThreshold
  show ((groundTruths.filter (·.className = c)).length : ℚ) -
      (tpCount (matchPredictions (predictions.filter (·.className = c))
        (groundTruths.filter (·.className = c)) iouThreshold) : ℚ) = _
  rw [unreferencedCount, hcount, hlen]
  rw [Nat.cast_sub htple]

lemma mem_insertDesc (p x : BoundingBox) (l : List BoundingBox) :
    x ∈ insertDesc p l ↔ x = p ∨ x ∈ l := by
  induction l with
  | nil => simp [insertDesc]
  | cons q qs ih =>
    simp only [insertDesc]
    split
    · simp only [List.mem_cons]
    · simp only [List.mem_cons, ih]
      tauto

lemma sortByConfidenceDesc_sorted (l : List BoundingBox) :
    (sortByConfidenceDesc l).Pairwise (fun a b => sortKey b ≤ sortKey a) := by
  induction l with
  | nil => exact List.Pairwise.nil
  | cons p ps ih =>
    simp only [sortByConfidenceDesc]
    generalize hm : sortByConfidenceDesc ps = m at ih
    clear hm
    induction m with
    | nil => simp [insertDesc]
    | cons q qs ihq =>
      simp only [insertDesc]
      split
      · next hle =>
        refine List.pairwise_cons.mpr ⟨?_, ih⟩
        intro x hx
        rcases List.mem_cons.mp hx with hx | hx
        · rw [hx]; exact hle
        · exact le_trans ((List.pairwise_cons.mp ih).1 x hx) hle
      · next hgt =>
        push_neg at hgt
        obtain ⟨hq, hqs⟩ := List.pairwise_cons.mp ih
        refine List.pairwise_cons.mpr ⟨?_, ihq hqs⟩
        intro x hx
        rcases (mem_insertDesc p x qs).mp hx with hx | hx
        · rw [hx]; exact hgt.le
        · exact hq x hx

lemma insertDesc_cons (p q : BoundingBox) (qs : List BoundingBox) :
    insertDesc p (q :: qs) =
      if sortKey q ≤ sortKey p then p :: q :: qs else q :: insertDesc p qs := rfl

lemma insertDesc_front (p : BoundingBox) (l : List BoundingBox)
    (h : ∀ x ∈ l, sortKey x ≤ sortKey p) : insertDesc p l = p :: l := by
  cases l with
  | nil => rfl
  | cons q qs =>
    simp only [insertDesc]
    rw [if_pos (h q (List.mem_cons_self q qs))]

lemma filter_insertDesc_pos (c : ℚ) (p : BoundingBox) (l : List BoundingBox)
    (hsort : l.Pairwise (fun a b => sortKey b ≤ sortKey a))
    (hp : c ≤ sortKey p) :
    (insertDesc p l).filter (fun q => c ≤ sortKey q) =
      insertDesc p (l.filter (fun q => c ≤ sortKey q)) := by
  induction l with
  | nil => simp [insertDesc, List.filter, hp]
  | cons q qs ih =>
    obtain ⟨hq, hqs⟩ := List.pairwise_cons.mp hsort
    simp only [insertDesc]
    split
    · next hle =>
      by_cases hcq : c ≤ sortKey q
      · simp only [List.filter_cons]
        rw [if_pos (by simpa using hp), if_pos (by simpa using hcq)]
        rw [insertDesc_cons, if_pos hle]
      · simp only [List.filter_cons]
        rw [if_pos (by simpa using hp), if_neg (by simpa using hcq)]
        rw [insertDesc_front]
        intro x hx
        obtain ⟨hxm, hxc⟩ := List.mem_filter.mp hx
        exact le_trans (hq x hxm) hle
    · next hgt =>
      push_neg at hgt
      have hcq : c ≤ sortKey q := le_trans hp hgt.le
      simp only [List.filter_cons]
      rw [if_pos (by simpa using hcq)]
      rw [ih hqs]
      rw [if_pos (by simpa using hcq)]
      rw [insertDesc_cons, if_neg (by simpa using not_le.mpr hgt)]

lemma filter_insertDesc_neg (c : ℚ) (p : BoundingBox) (l : List BoundingBox)
    (hp : ¬ c ≤ sortKey p) :
    (insertDesc p l).filter (fun q => c ≤ sortKey q) = l.filter (fun q => c ≤ sortKey q) := by
  induction l with
  | nil => simp [insertDesc, List.filter, hp]
  | cons q qs ih =>
    simp only [insertDesc]
    split
    · simp only [List.filter_cons]
      rw [if_neg (by simpa using hp)]
    · simp only [List.filter_cons]
      by_cases hcq : c ≤ sortKey q
      · rw [if_pos (by simpa using hcq), if_pos (by simpa using hcq), ih]
      · rw [if_neg (by simpa using hcq), if_neg (by simpa using hcq), ih]

lemma sort_filter_comm (c : ℚ) (l : List BoundingBox) :
    sortByConfidenceDesc (l.filter (fun q => c ≤ sortKey q)) =
      (sortByConfidenceDesc l).filter (fun q => c ≤ sortKey q) := by
  induction l with
  | nil => rfl
  | cons p ps ih =>
    simp only [sortByConfidenceDesc, List.filter_cons]
    by_cases hp : c ≤ sortKey p
    · rw [if_pos (by simpa using hp)]
      simp only [sortByConfidenceDesc]
      rw [ih, filter_insertDesc_pos c p _ (sortByConfidenceDesc_sorted ps) hp]
    · rw [if_neg (by simpa using hp)]
      rw [ih, filter_insertDesc_neg c p _ hp]

lemma filter_eq_takeWhile_of_sorted (c : ℚ) (l : List BoundingBox)
    (hsort : l.Pairwise (fun a b => sortKey b ≤ sortKey a)) :
    l.filter (fun q => c ≤ sortKey q) = l.takeWhile (fun q => c ≤ sortKey q) := by
  induction l with
  | nil => rfl
  | cons q qs ih =>
    obtain ⟨hq, hqs⟩ := List.pairwise_cons.mp hsort
    by_cases hcq : c ≤ sortKey q
    · simp only [List.filter_cons, List.takeWhile_cons]
      rw [if_pos (by simpa using hcq), if_pos (by simpa using hcq), ih hqs]
    · simp only [List.filter_cons, List.takeWhile_cons]
      rw [if_neg (by simpa using hcq), if_neg (by simpa using hcq)]
      apply List.filter_eq_nil_iff.mpr
      intro x hx
      simp only [decide_eq_true_eq]
      intro hcx
      exact hcq (le_trans hcx (hq x hx))

lemma matchFold_append (gts : List GroundTruthBox) (t : ℚ) :
    ∀ (l₁ l₂ : List BoundingBox) (used : Finset ℕ),
    matchFold gts t (l₁ ++ l₂) used =
      ((matchFold gts t l₁ used).1 ++ (matchFold gts t l₂ (matchFold gts t l₁ used).2).1,
       (matchFold gts t l₂ (matchFold gts t l₁ used).2).2) := by
  intro l₁
  induction l₁ with
  | nil => intro l₂ used; simp [matchFold]
  | cons p ps ih =>
    intro l₂ used
    by_cases ht : t ≤ (findBest p gts used).1
    · rcases hk : (findBest p gts used).2 with _ | k
      · rw [List.cons_append, matchFold_cons_incorrect gts t p (ps ++ l₂) used (Or.inr hk),
          matchFold_cons_incorrect gts t p ps used (Or.inr hk), ih]
        simp
      · rw [List.cons_append, matchFold_cons_correct gts t p (ps ++ l₂) used k hk ht,
          matchFold_cons_correct gts t p ps used k hk ht, ih]
        simp
    · rw [List.cons_append, matchFold_cons_incorrect gts t p (ps ++ l₂) used (Or.inl ht),
        matchFold_cons_incorrect gts t p ps used (Or.inl ht), ih]
      simp

lemma tpCount_append_left_le (gts : List GroundTruthBox) (t : ℚ)
    (l₁ l₂ : List BoundingBox) :
    tpCount (matchFold gts t l₁ ∅).1 ≤ tpCount (matchFold gts t (l₁ ++ l₂) ∅).1 := by
  rw [matchFold_append]
  simp only [tpCount, List.filter_append, List.length_append]
  omega

lemma filterByConfidence_sortKey (predictions : List BoundingBox) (c : ℚ) :
    filterByConfidence predictions c = predictions.filter (fun q => c ≤ sortKey q) := rfl

lemma filterByConfidence_trans (predictions : List BoundingBox) (c c' : ℚ) (hcc : c ≤ c') :
    filterByConfidence predictions c' =
      (filterByConfidence predictions c).filter (fun q => c' ≤ sortKey q) := by
  rw [filterByConfidence_sortKey, filterByConfidence_sortKey, List.filter_filter]
  apply List.filter_congr
  intro a _
  by_cases h : c' ≤ sortKey a
  · have hc : c ≤ sortKey a := le_trans hcc h
    simp [h, hc]
  · simp [h]

/-- Raising the confidence cutoff removes a suffix of the sorted
prediction list, so the greedy matcher can only lose true positives. -/
lemma tpCount_confidence_antitone (predictions : List BoundingBox)
    (gts : List GroundTruthBox) (t : ℚ) (c c' : ℚ) (hcc : c ≤ c') :
    tpCount (matchPredictions (filterByConfidence predictions c') gts t) ≤
      tpCount (matchPredictions (filterByConfidence predictions c) gts t) := by
  unfold matchPredictions
  have hsorted := sortByConfidenceDesc_sorted (filterByConfidence predictions c)
  have heq : sortByConfidenceDesc (filterByConfidence predictions c') =
      (sortByConfidenceDesc (filterByConfidence predictions c)).takeWhile
        (fun q => c' ≤ sortKey q) := by
    rw [filterByConfidence_trans predictions c c' hcc, sort_filter_comm,
      filter_eq_takeWhile_of_sorted _ _ hsorted]
  rw [heq]
  calc tpCount (matchFold gts t
        ((sortByConfidenceDesc (filterByConfidence predictions c)).takeWhile
          (fun q => c' ≤ sortKey q)) ∅).1
      ≤ tpCount (matchFold gts t
        ((sortByConfidenceDesc (filterByConfidence predictions c)).takeWhile
          (fun q => c' ≤ sortKey q) ++
         (sortByConfidenceDesc (filterByConfidence predictions c)).dropWhile
          (fun q => c' ≤ sortKey q)) ∅).1 := tpCount_append_left_le gts t _ _
    _ = tpCount (matchFold gts t (sortByConfidenceDesc (filterByConfidence predictions c)) ∅).1 := by
        rw [List.takeWhile_append_dropWhile]

lemma mem_uniqueFirstAux (s : String) :
    ∀ (l seen : List String), s ∈ uniqueFirstAux l seen ↔ s ∈ l ∧ s ∉ seen := by
  intro l
  induction l with
  | nil => intro seen; simp [uniqueFirstAux]
  | cons a l ih =>
    intro seen
    rw [uniqueFirstAux]
    split
    · next ha =>
      rw [ih seen]
      simp only [List.mem_cons]
      constructor
      · exact fun ⟨h1, h2⟩ => ⟨Or.inr h1, h2⟩
      · rintro ⟨h1 | h1, h2⟩
        · exact absurd (h1 ▸ ha) h2
        · exact ⟨h1, h2⟩
    · next ha =>
      simp only [List.mem_cons, ih (a :: seen), List.mem_cons]
      by_cases hs : s = a
      · subst hs
        simp [ha]
      · simp [hs]

lemma mem_uniqueFirst (s : String) : ∀ (l : List String), s ∈ uniqueFirst l ↔ s ∈ l := by
  intro l
  rw [uniqueFirst, mem_uniqueFirstAux]
  simp

lemma nodup_uniqueFirstAux :
    ∀ (l seen : List String), (uniqueFirstAux l seen).Nodup := by
  intro l
  induction l with
  | nil => intro seen; simp [uniqueFirstAux]
  | cons a l ih =>
    intro seen
    rw [uniqueFirstAux]
    split
    · exact ih seen
    · refine List.nodup_cons.mpr ⟨?_, ih (a :: seen)⟩
      intro hmem
      exact ((mem_uniqueFirstAux a l (a :: seen)).mp hmem).2 (List.mem_cons_self a seen)

lemma nodup_uniqueFirst : ∀ (l : List String), (uniqueFirst l).Nodup :=
  fun l => nodup_uniqueFirstAux l []

lemma length_filter_className (gts : List GroundTruthBox) (χ : String) :
    ((gts.filter (·.className = χ)).length) = (gts.map (·.className)).count χ := by
  induction gts with
  | nil => rfl
  | cons g gs ih =>
    simp only [List.filter_cons, List.map_cons]
    by_cases hg : g.className = χ
    · rw [if_pos (by simpa using hg)]
      rw [List.count_cons]
      simp [hg, ih]
    · rw [if_neg (by simpa using hg)]
      rw [List.count_cons]
      simp only [ih]
      have : ¬ (χ == g.className) = true := by simpa using fun h => hg h.symm
      simp [this, hg]

/-- Sums of a per-class quantity over the orchestrated class-name list
reduce to sums over the distinct ground-truth classes whenever the
quantity vanishes on classes with no ground truth. -/
lemma sum_map_classNames (predictions : List BoundingBox)
    (groundTruths : List GroundTruthBox) (F : String → ℚ)
    (hF : ∀ χ, groundTruths.filter (·.className = χ) = [] → F χ = 0) :
    ((uniqueFirst (predictions.map (·.className) ++ groundTruths.map (·.className))).map F).sum =
      ∑ χ in (groundTruths.map (·.className)).toFinset, F χ := by
  set L := uniqueFirst (predictions.map (·.className) ++ groundTruths.map (·.className)) with hL
  have hnd : L.Nodup := nodup_uniqueFirst _
  rw [← List.sum_toFinset F hnd]
  apply (Finset.sum_subset ?_ ?_).symm
  · intro χ hχ
    rw [List.mem_toFinset] at hχ ⊢
    rw [hL, mem_uniqueFirst]
    exact List.mem_append_right _ hχ
  · intro χ hχ hnχ
    apply hF
    rw [List.mem_toFinset] at hnχ
    apply List.filter_eq_nil_iff.mpr
    intro g hg
    simp only [decide_eq_true_eq]
    intro hgc
    exact hnχ (List.mem_map.mpr ⟨g, hg, hgc⟩)

lemma sum_sampleCounts (groundTruths : List GroundTruthBox) :
    ∑ χ in (groundTruths.map (·.className)).toFinset,
      ((groundTruths.filter (·.className = χ)).length : ℚ) = (groundTruths.length : ℚ) := by
  have h : ∀ χ ∈ (groundTruths.map (·.className)).toFinset,
      ((groundTruths.filter (·.className = χ)).length : ℚ) =
      (((groundTruths.map (·.className)).count χ : ℕ) : ℚ) := by
    intro χ _
    exact_mod_cast congrArg (Nat.cast (R := ℚ)) (length_filter_className groundTruths χ)
  rw [Finset.sum_congr rfl h]
  rw [← Nat.cast_sum]
  rw [List.sum_toFinset_count_eq_length]
  simp

lemma overall_recall_formula (P : List BoundingBox) (gts : List GroundTruthBox) (t : ℚ) :
    (calculateOverallMetrics P gts t).«recall» =
      if 0 < (gts.length : ℚ) then
        (∑ χ in (gts.map (·.className)).toFinset,
          (tpCount (matchPredictions (P.filter (·.className = χ))
            (gts.filter (·.className = χ)) t) : ℚ)) / (gts.length : ℚ)
      else 0 := by
  have hTP : ((calculateOverallMetrics P gts t).classMetrics.map (·.truePositives)).sum =
      ∑ χ in (gts.map (·.className)).toFinset,
        (tpCount (matchPredictions (P.filter (·.className = χ))
          (gts.filter (·.className = χ)) t) : ℚ) := by
    have h1 : ((calculateOverallMetrics P gts t).classMetrics.map (·.truePositives)) =
        (uniqueFirst (P.map (·.className) ++ gts.map (·.className))).map
          (fun χ => (tpCount (matchPredictions (P.filter (·.className = χ))
            (gts.filter (·.className = χ)) t) : ℚ)) := by
      show ((uniqueFirst (P.map (·.className) ++ gts.map (·.className))).map
          (fun χ => calculateClassMetrics P gts χ t)).map (·.truePositives) = _
      rw [List.map_map]
      rfl
    rw [h1]
    apply sum_map_classNames
    intro χ hχ
    rw [hχ, tpCount_nil_groundTruths]
    simp
  have hFN : ((calculateOverallMetrics P gts t).classMetrics.map (·.falseNegatives)).sum =
      ∑ χ in (gts.map (·.className)).toFinset,
        (((gts.filter (·.className = χ)).length : ℚ) -
          (tpCount (matchPredictions (P.filter (·.className = χ))
            (gts.filter (·.className = χ)) t) : ℚ)) := by
    have h1 : ((calculateOverallMetrics P gts t).classMetrics.map (·.falseNegatives)) =
        (uniqueFirst (P.map (·.className) ++ gts.map (·.className))).map
          (fun χ => ((gts.filter (·.className = χ)).length : ℚ) -
            (tpCount (matchPredictions (P.filter (·.className = χ))
              (gts.filter (·.className = χ)) t) : ℚ)) := by
      show ((uniqueFirst (P.map (·.className) ++ gts.map (·.className))).map
          (fun χ => calculateClassMetrics P gts χ t)).map (·.falseNegatives) = _
      rw [List.map_map]
      rfl
    rw [h1]
    apply sum_map_classNames
    intro χ hχ
    rw [hχ, tpCount_nil_groundTruths]
    simp
  have hsum : ((calculateOverallMetrics P gts t).classMetrics.map (·.truePositives)).sum +
      ((calculateOverallMetrics P gts t).classMetrics.map (·.falseNegatives)).sum =
      (gts.length : ℚ) := by
    rw [hTP, hFN, ← Finset.sum_add_distrib]
    rw [← sum_sampleCounts gts]
    apply Finset.sum_congr rfl
    intro χ _
    ring
  have hrec : (calculateOverallMetrics P gts t).«recall» =
      if 0 < ((calculateOverallMetrics P gts t).classMetrics.map (·.truePositives)).sum +
          ((calculateOverallMetrics P gts t).classMetrics.map (·.falseNegatives)).sum then
        ((calculateOverallMetrics P gts t).classMetrics.map (·.truePositives)).sum /
        (((calculateOverallMetrics P gts t).classMetrics.map (·.truePositives)).sum +
          ((calculateOverallMetrics P gts t).classMetrics.map (·.falseNegatives)).sum)
      else 0 := rfl
  rw [hrec, hsum, hTP]

/-- C5: raising the confidence cutoff of the sweep cannot increase the
overall recall (for a fixed prediction list, ground-truth list and IoU
threshold). -/
theorem sweep_recall_antitone (predictions : List BoundingBox)
    (groundTruths : List GroundTruthBox) (iouThreshold : ℚ) (c c' : ℚ) (hcc : c ≤ c') :
    (calculateOverallMetrics (filterByConfidence predictions c')
      groundTruths iouThreshold).«recall» ≤
    (calculateOverallMetrics (filterByConfidence predictions c)
      groundTruths iouThreshold).«recall» := by
  have hcomm : ∀ conf χ, (filterByConfidence predictions conf).filter (·.className = χ) =
      filterByConfidence (predictions.filter (·.className = χ)) conf := by
    intro conf χ
    show ((predictions.filter _).filter _ : List BoundingBox) = (predictions.filter _).filter _
    rw [List.filter_filter, List.filter_filter]
    apply List.filter_congr
    intro a _
    exact Bool.and_comm _ _
  rw [overall_recall_formula, overall_recall_formula]
  split_ifs with hlen
  · rw [div_le_div_iff_of_pos_right hlen]
    apply Finset.sum_le_sum
    intro χ _
    rw [hcomm c' χ, hcomm c χ]
    exact_mod_cast tpCount_confidence_antitone (predictions.filter (·.className = χ))
      (groundTruths.filter (·.className = χ)) iouThreshold c c' hcc
  · exact le_refl 0

lemma foldBest_const (l : List ThresholdMetrics) (best : OptimalThreshold)
    (h : ∀ e ∈ l, e.f1Score ≤ best.f1Score) :
    l.foldl (fun best e =>
      if best.f1Score < e.f1Score then ⟨e.threshold, e.f1Score⟩ else best) best = best := by
  induction l generalizing best with
  | nil => rfl
  | cons e rest ih =>
    simp only [List.foldl_cons]
    rw [if_neg (not_lt.mpr (h e (List.mem_cons_self e rest)))]
    exact ih best (fun e' he' => h e' (List.mem_cons_of_mem e he'))

lemma foldBest_firstmax (l : List ThresholdMetrics) :
    ∀ (best : OptimalThreshold) (i : ℕ) (hi : i < l.length),
    (∀ j (hj : j < l.length), (l.get ⟨j, hj⟩).f1Score ≤ (l.get ⟨i, hi⟩).f1Score) →
    (∀ j (hj : j < i), (l.get ⟨j, lt_trans hj hi⟩).f1Score < (l.get ⟨i, hi⟩).f1Score) →
    best.f1Score < (l.get ⟨i, hi⟩).f1Score →
    l.foldl (fun best e =>
      if best.f1Score < e.f1Score then ⟨e.threshold, e.f1Score⟩ else best) best =
      ⟨(l.get ⟨i, hi⟩).threshold, (l.get ⟨i, hi⟩).f1Score⟩ := by
  induction l with
  | nil => intro best i hi; exact absurd hi (by simp)
  | cons e rest ih =>
    intro best i hi hub hfirst hbest
    match i with
    | 0 =>
      simp only [List.get] at hub hbest ⊢
      simp only [List.foldl_cons]
      rw [if_pos hbest]
      apply foldBest_const
      intro e' he'
      obtain ⟨⟨j, hj⟩, hje⟩ := List.mem_iff_get.mp he'
      have := hub (j + 1) (by simpa using hj)
      rw [← hje]
      simpa using this
    | i' + 1 =>
      have hi' : i' < rest.length := by simpa using hi
      simp only [List.get] at hub hfirst hbest ⊢
      simp only [List.foldl_cons]
      have he : e.f1Score < (rest.get ⟨i', hi'⟩).f1Score := by
        have := hfirst 0 (Nat.succ_pos i')
        simpa using this
      have hstep : (if best.f1Score < e.f1Score then
          (⟨e.threshold, e.f1Score⟩ : OptimalThreshold) else best).f1Score <
          (rest.get ⟨i', hi'⟩).f1Score := by
        split_ifs
        · exact he
        · exact hbest
      refine ih _ i' hi' ?_ ?_ hstep
      · intro j hj
        have := hub (j + 1) (by simpa using hj)
        simpa using this
      · intro j hj
        have := hfirst (j + 1) (by simpa using hj)
        simpa using this

/-- C8: `findOptimalThreshold` returns the threshold of the first entry of
the default 9-point sweep whose F1 attains the maximum of the curve
(together with that maximal F1), and returns `(0.5, 0)` when no threshold
achieves an F1 greater than `0`. -/
theorem findOptimalThreshold_spec (predictions : List BoundingBox)
    (groundTruths : List GroundTruthBox) (iouThreshold : ℚ) :
    (∀ i (hi : i < (calculateMetricsAtThresholds predictions groundTruths
        defaultThresholds iouThreshold).length),
      (∀ j (hj : j < (calculateMetricsAtThresholds predictions groundTruths
          defaultThresholds iouThreshold).length),
        ((calculateMetricsAtThresholds predictions groundTruths
          defaultThresholds iouThreshold).get ⟨j, hj⟩).f1Score ≤
        ((calculateMetricsAtThresholds predictions groundTruths
          defaultThresholds iouThreshold).get ⟨i, hi⟩).f1Score) →
      (∀ j (hj : j < i),
        ((calculateMetricsAtThresholds predictions groundTruths
          defaultThresholds iouThreshold).get ⟨j, lt_trans hj hi⟩).f1Score <
        ((calculateMetricsAtThresholds predictions groundTruths
          defaultThresholds iouThreshold).get ⟨i, hi⟩).f1Score) →
      0 < ((calculateMetricsAtThresholds predictions groundTruths
          defaultThresholds iouThreshold).get ⟨i, hi⟩).f1Score →
      findOptimalThreshold predictions groundTruths iouThreshold =
        ⟨((calculateMetricsAtThresholds predictions groundTruths
            defaultThresholds iouThreshold).get ⟨i, hi⟩).threshold,
         ((calculateMetricsAtThresholds predictions groundTruths
            defaultThresholds iouThreshold).get ⟨i, hi⟩).f1Score⟩) ∧
    ((∀ e ∈ calculateMetricsAtThresholds predictions groundTruths
        defaultThresholds iouThreshold, e.f1Score ≤ 0) →
      findOptimalThreshold predictions groundTruths iouThreshold = ⟨0.5, 0⟩) := by
  constructor
  · intro i hi hub hfirst hpos
    exact foldBest_firstmax _ ⟨0.5, 0⟩ i hi hub hfirst hpos
  · intro h
    exact foldBest_const _ ⟨0.5, 0⟩ h

/-- Counting payload returned by the backend detection service
(`AiCountingData` in `backend.types`).  It carries object counts and an
optional raw detection list, but the evaluation hook never reads it. -/
structure AiCountingData where
  totalBoxes : ℚ
  roboflowPredictions : Option (List BoundingBox)
deriving DecidableEq

/-- Shape of a `detectObjectsAction` server-action response. -/
structure DetectResponse where
  success : Bool
  data : Option AiCountingData
  error : Option String
deriving DecidableEq

/-- `BATCH_SIZE` of the evaluation hook. -/
def BATCH_SIZE : ℕ := 4

/-- `RETRY_ATTEMPTS` of the evaluation hook. -/
def RETRY_ATTEMPTS : ℕ := 2

/-- Retry kernel of `processImageWithRetry`, structurally recursive on the
remaining retry budget `RETRY_ATTEMPTS - attempt` (so `budget > 0` is the
source's `attempt < RETRY_ATTEMPTS` guard): call the detection action
(modelled as a per-attempt response function so transient failures can be
expressed), throw its error once the budget is exhausted, and — as the
source does, because the backend payload has no box coordinates — return
the empty prediction list on success, ignoring the response data. -/
def processRetryAux {Img : Type} (detect : Img → ℕ → DetectResponse)
    (image : Img) : ℕ → ℕ → Except String (List BoundingBox)
  | attempt, budget =>
    let result := detect image attempt
    if result.success then Except.ok []
    else match budget with
      | 0 => Except.error (result.error.getD "Failed to analyze image")
      | b + 1 => processRetryAux detect image (attempt + 1) b

/-- `processImageWithRetry` of the evaluation hook. -/
def processImageWithRetry {Img : Type} (detect : Img → ℕ → DetectResponse)
    (image : Img) (attempt : ℕ) : Except String (List BoundingBox) :=
  processRetryAux detect image attempt (RETRY_ATTEMPTS - attempt)

/-- The batch loop of `runEvaluation`, structurally recursive on the
number of remaining groups (`totalBatches - batchIndex` at entry): before
each group the cancellation token (`aborted`, indexed by group) is
checked; within a group the images are processed jointly (`Promise.all`,
modelled as `mapM`, the first rejection failing the group); groups run in
order. -/
def runBatchesAux {Img : Type} (detect : Img → ℕ → DetectResponse) (aborted : ℕ → Bool)
    (images : List Img) : ℕ → ℕ → Except String (List (List BoundingBox))
  | _, 0 => Except.ok []
  | batchIndex, remaining + 1 =>
    if aborted batchIndex then Except.error "Evaluation cancelled"
    else do
      let batch := (images.drop (batchIndex * BATCH_SIZE)).take BATCH_SIZE
      let batchResults ← batch.mapM (fun img => processImageWithRetry detect img 1)
      let rest ← runBatchesAux detect aborted images (batchIndex + 1) remaining
      Except.ok (batchResults ++ rest)

/-- The source's `for` loop over `batchIndex in [0, totalBatches)`. -/
def runBatches {Img : Type} (detect : Img → ℕ → DetectResponse) (aborted : ℕ → Bool)
    (images : List Img) (totalBatches : ℕ) : Except String (List (List BoundingBox)) :=
  runBatchesAux detect aborted images 0 totalBatches

/-- States of the hook's `step` field. -/
inductive EvaluationStep where
  | upload
  | processing
  | results
deriving DecidableEq

/-- Values of `ProcessingStatus.status`.  Note there is no dedicated
cancelled state. -/
inductive RunStatus where
  | idle
  | processing
  | error
  | complete
deriving DecidableEq

/-- The observable slice of the hook's `ProcessingStatus` (progress
counters and the wall-clock ETA estimate are outside this model). -/
structure ProcessingStatus where
  status : RunStatus
  message : String
deriving DecidableEq

def initialProcessingStatus : ProcessingStatus := ⟨RunStatus.idle, ""⟩

/-- The caller-observable outcome of one `runEvaluation` call: the final
values of the hook state the run writes. -/
structure EvalResult where
  step : EvaluationStep
  predictions : List (List BoundingBox)
  currentMetrics : Option OverallMetrics
  error : Option String
  processingStatus : ProcessingStatus
deriving DecidableEq

/-- `calculateMetricsInternal` of the evaluation hook: flatten the
per-image predictions and ground truths, filter by the confidence
threshold, and delegate to the Metrics Aggregator. -/
def calculateMetricsInternal (preds : List (List BoundingBox))
    (gts : List (List GroundTruthBox)) (confThreshold iouThresh : ℚ) : OverallMetrics :=
  calculateOverallMetrics (filterByConfidence preds.flatten confThreshold)
    gts.flatten iouThresh

/-- `runEvaluation` of the evaluation hook.  `aborted b` models
`abortController.current.signal.aborted` as observed when group `b` is
about to start. -/
def runEvaluation {Img : Type} (images : List Img)
    (groundTruths : List (List GroundTruthBox))
    (detect : Img → ℕ → DetectResponse) (aborted : ℕ → Bool)
    (confidenceThreshold iouThreshold : ℚ) : EvalResult :=
  if images.length = 0 then
    ⟨EvaluationStep.upload, [], none, some "Please upload images first",
     initialProcessingStatus⟩
  else if groundTruths.length = 0 then
    ⟨EvaluationStep.upload, [], none, some "Please upload ground truth annotations",
     initialProcessingStatus⟩
  else if groundTruths.length < images.length then
    ⟨EvaluationStep.upload, [], none,
     some ("You uploaded " ++ toString images.length ++ " images but only have " ++
       toString groundTruths.length ++ " annotation sets."),
     initialProcessingStatus⟩
  else
    let actualGroundTruths := groundTruths.take images.length
    let totalBatches := (images.length + BATCH_SIZE - 1) / BATCH_SIZE
    match runBatches detect aborted images totalBatches with
    | Except.ok allPredictions =>
        ⟨EvaluationStep.results, allPredictions,
         some (calculateMetricsInternal allPredictions actualGroundTruths
           confidenceThreshold iouThreshold),
         none, ⟨RunStatus.complete, "Evaluation complete!"⟩⟩
    | Except.error msg =>
        ⟨EvaluationStep.upload, [], none, some msg, ⟨RunStatus.error, msg⟩⟩

lemma processImageWithRetry_success {Img : Type} (detect : Img → ℕ → DetectResponse)
    (img : Img) (attempt : ℕ) (h : (detect img attempt).success = true) :
    processImageWithRetry detect img attempt = Except.ok [] := by
  unfold processImageWithRetry processRetryAux
  simp [h]

lemma mapM_processImage_success {Img : Type} (detect : Img → ℕ → DetectResponse)
    (hsucc : ∀ img attempt, (detect img attempt).success = true) :
    ∀ (batch : List Img),
    batch.mapM (fun img => processImageWithRetry detect img 1) =
      Except.ok (List.replicate batch.length []) := by
  intro batch
  induction batch with
  | nil => rfl
  | cons img rest ih =>
    rw [List.mapM_cons, processImageWithRetry_success detect img 1 (hsucc img 1), ih]
    rfl

lemma runBatchesAux_all_success {Img : Type} (detect : Img → ℕ → DetectResponse)
    (images : List Img) (hsucc : ∀ img attempt, (detect img attempt).success = true) :
    ∀ (fuel i : ℕ), images.length ≤ (i + fuel) * BATCH_SIZE →
    runBatchesAux detect (fun _ => false) images i fuel =
      Except.ok (List.replicate ((images.drop (i * BATCH_SIZE)).length) []) := by
  intro fuel
  induction fuel with
  | zero =>
    intro i hbound
    have hlen : (images.drop (i * BATCH_SIZE)).length = 0 := by
      rw [List.length_drop]
      simp only [BATCH_SIZE] at hbound ⊢
      omega
    rw [hlen]
    rfl
  | succ r ih =>
    intro i hbound
    have hmap := mapM_processImage_success detect hsucc
      ((images.drop (i * BATCH_SIZE)).take BATCH_SIZE)
    have hrest := ih (i + 1) (by rw [show i + 1 + r = i + (r + 1) from by omega]; exact hbound)
    have hstep : runBatchesAux detect (fun _ => false) images i (r + 1) =
        Except.ok ((List.replicate ((images.drop (i * BATCH_SIZE)).take BATCH_SIZE).length []) ++
          List.replicate ((images.drop ((i + 1) * BATCH_SIZE)).length) []) := by
      rw [runBatchesAux, if_neg (by simp)]
      show (do
        let batchResults ← ((images.drop (i * BATCH_SIZE)).take BATCH_SIZE).mapM
          (fun img => processImageWithRetry detect img 1)
        let rest ← runBatchesAux detect (fun _ => false) images (i + 1) r
        Except.ok (batchResults ++ rest)) = _
      rw [hmap, hrest]
      rfl
    rw [hstep, ← List.replicate_add]
    congr 2
    simp only [List.length_take, List.length_drop]
    simp only [BATCH_SIZE] at hbound ⊢
    omega

lemma flatten_replicate_nil {α : Type} (n : ℕ) :
    (List.replicate n ([] : List α)).flatten = [] := by
  induction n with
  | zero => rfl
  | succ m ih => simp [List.replicate_succ, ih]

/-- C1 (divergence exhibit): on every fully successful, uncancelled run,
the orchestrator accumulates the EMPTY prediction set for every image —
independently of what the detection collaborator returned (its counting
payload, including any raw detections it carries, is discarded by
`processImageWithRetry`) — and the returned metrics are computed by the
Metrics Aggregator over an empty prediction list. -/
theorem runEvaluation_discards_detector_output {Img : Type} (images : List Img)
    (groundTruths : List (List GroundTruthBox))
    (detect : Img → ℕ → DetectResponse) (confidenceThreshold iouThreshold : ℚ)
    (hne : images.length ≠ 0) (hlen : images.length = groundTruths.length)
    (hsucc : ∀ img attempt, (detect img attempt).success = true) :
    runEvaluation images groundTruths detect (fun _ => false)
      confidenceThreshold iouThreshold =
      ⟨EvaluationStep.results, List.replicate images.length [],
       some (calculateOverallMetrics [] groundTruths.flatten iouThreshold), none,
       ⟨RunStatus.complete, "Evaluation complete!"⟩⟩ := by
  have hgne : ¬ groundTruths.length = 0 := by omega
  have hnlt : ¬ groundTruths.length < images.length := by omega
  unfold runEvaluation
  rw [if_neg hne, if_neg hgne, if_neg hnlt]
  have hrun : runBatches detect (fun _ => false) images
      ((images.length + BATCH_SIZE - 1) / BATCH_SIZE) =
      Except.ok (List.replicate images.length []) := by
    unfold runBatches
    rw [runBatchesAux_all_success detect images hsucc
      ((images.length + BATCH_SIZE - 1) / BATCH_SIZE) 0
      (by simp only [BATCH_SIZE]; omega)]
    simp
  have hmetrics : calculateMetricsInternal (List.replicate images.length [])
      (groundTruths.take images.length) confidenceThreshold iouThreshold =
      calculateOverallMetrics [] groundTruths.flatten iouThreshold := by
    unfold calculateMetricsInternal
    rw [flatten_replicate_nil, hlen, List.take_length]
    rfl
  simp only [hrun, hmetrics]

lemma runBatchesAux_cancelled {Img : Type} (detect : Img → ℕ → DetectResponse)
    (aborted : ℕ → Bool) (images : List Img)
    (hsucc : ∀ img attempt, (detect img attempt).success = true) :
    ∀ (fuel i j : ℕ), j < fuel → aborted (i + j) = true →
    (∀ j' < j, aborted (i + j') = false) →
    runBatchesAux detect aborted images i fuel = Except.error "Evaluation cancelled" := by
  intro fuel
  induction fuel with
  | zero => intro i j hj; omega
  | succ r ih =>
    intro i j hj habort hearlier
    rw [runBatchesAux]
    match j with
    | 0 =>
      rw [Nat.add_zero] at habort
      rw [if_pos habort]
    | j' + 1 =>
      have h0 : aborted i = false := by
        have := hearlier 0 (Nat.succ_pos j')
        simpa using this
      rw [if_neg (by simp [h0])]
      show (do
        let batchResults ← ((images.drop (i * BATCH_SIZE)).take BATCH_SIZE).mapM
          (fun img => processImageWithRetry detect img 1)
        let rest ← runBatchesAux detect aborted images (i + 1) r
        Except.ok (batchResults ++ rest)) = Except.error "Evaluation cancelled"
      rw [mapM_processImage_success detect hsucc]
      rw [ih (i + 1) j' (by omega) (by rw [show i + 1 + j' = i + (j' + 1) by omega]; exact habort)
        (fun j'' hj'' => by rw [show i + 1 + j'' = i + (j'' + 1) by omega]
                            exact hearlier (j'' + 1) (by omega))]
      rfl

/-- C7 (amended): when the cancellation token is set at the boundary of
group `b` (all earlier groups unaborted and successful), the run stops
there and reports the generic error outcome — step back to `upload`,
status `error` (the same status failures use; there is no dedicated
cancelled state), no predictions and no metrics — with the message
string `"Evaluation cancelled"` as the only marker of cancellation. -/
theorem runEvaluation_cancelled_reports_error {Img : Type} (images : List Img)
    (groundTruths : List (List GroundTruthBox))
    (detect : Img → ℕ → DetectResponse) (aborted : ℕ → Bool)
    (confidenceThreshold iouThreshold : ℚ) (b : ℕ)
    (hne : images.length ≠ 0) (hge : images.length ≤ groundTruths.length)
    (hb : b < (images.length + BATCH_SIZE - 1) / BATCH_SIZE)
    (habort : aborted b = true) (hearlier : ∀ b' < b, aborted b' = false)
    (hsucc : ∀ img attempt, (detect img attempt).success = true) :
    runEvaluation images groundTruths detect aborted
      confidenceThreshold iouThreshold =
      ⟨EvaluationStep.upload, [], none, some "Evaluation cancelled",
       ⟨RunStatus.error, "Evaluation cancelled"⟩⟩ := by
  have hgne : ¬ groundTruths.length = 0 := by omega
  have hnlt : ¬ groundTruths.length < images.length := by omega
  unfold runEvaluation
  rw [if_neg hne, if_neg hgne, if_neg hnlt]
  have hrun : runBatches detect aborted images
      ((images.length + BATCH_SIZE - 1) / BATCH_SIZE) =
      Except.error "Evaluation cancelled" := by
    unfold runBatches
    exact runBatchesAux_cancelled detect aborted images hsucc _ 0 b hb
      (by simpa using habort) (fun j' hj' => by simpa using hearlier j' hj')
  simp only [hrun]

/-- Concrete prediction used by the witnesses: a confident class-A box. -/
def boxA : BoundingBox := ⟨100, 100, 50, 50, "A", some (9/10)⟩

/-- Concrete low-confidence class-A prediction. -/
def boxALow : BoundingBox := ⟨100, 100, 50, 50, "A", some (3/10)⟩

/-- Concrete class-B prediction at the same coordinates. -/
def boxB : BoundingBox := ⟨100, 100, 50, 50, "B", some (9/10)⟩

/-- Concrete class-A ground-truth box. -/
def gtBoxA : GroundTruthBox := ⟨100, 100, 50, 50, "A"⟩

/-- A detection collaborator that always succeeds and whose counting
payload even carries a raw detection. -/
def detectAlwaysOk : ℕ → ℕ → DetectResponse :=
  fun _ _ => ⟨true, some ⟨1, some [boxA]⟩, none⟩

/-- A detection collaborator that always fails with a transport error. -/
def detectAlwaysFail : ℕ → ℕ → DetectResponse :=
  fun _ _ => ⟨false, none, some "network error"⟩

/-- C7 counterexample: a run stopped by the cancellation token and a run
broken by a detection failure end in the SAME outcome constructor — both
report `status = error` and reset `step` to `upload`; the hook has no
distinct Cancelled state, so the outcomes differ only in the message
string. -/
theorem cancelled_status_equals_failure_status :
    (runEvaluation [0] [[gtBoxA]] detectAlwaysOk (fun _ => true)
      (1/2) (1/2)).processingStatus.status = RunStatus.error ∧
    (runEvaluation [0] [[gtBoxA]] detectAlwaysFail (fun _ => false)
      (1/2) (1/2)).processingStatus.status = RunStatus.error ∧
    (runEvaluation [0] [[gtBoxA]] detectAlwaysOk (fun _ => true) (1/2) (1/2)).step =
      (runEvaluation [0] [[gtBoxA]] detectAlwaysFail (fun _ => false) (1/2) (1/2)).step := by
  decide

/-- Witness for C7's amended theorem at a concrete cancelled run. -/
theorem runEvaluation_cancelled_reports_error_witness :
    runEvaluation [0] [[gtBoxA]] detectAlwaysOk (fun _ => true) (1/2) (1/2) =
      ⟨EvaluationStep.upload, [], none, some "Evaluation cancelled",
       ⟨RunStatus.error, "Evaluation cancelled"⟩⟩ :=
  runEvaluation_cancelled_reports_error [0] [[gtBoxA]] detectAlwaysOk (fun _ => true)
    (1/2) (1/2) 0 (by decide) (by decide) (by decide) rfl
    (fun b' hb' => absurd hb' (Nat.not_lt_zero b')) (fun _ _ => rfl)

/-- Witness for C1's divergence theorem: a successful one-image run whose
detector reported a detection, yet the accumulated prediction set is
empty and the metrics are computed from no predictions. -/
theorem runEvaluation_discards_detector_output_witness :
    runEvaluation [0] [[gtBoxA]] detectAlwaysOk (fun _ => false) (1/2) (1/2) =
      ⟨EvaluationStep.results, List.replicate 1 [],
       some (calculateOverallMetrics [] [gtBoxA] (1/2)), none,
       ⟨RunStatus.complete, "Evaluation complete!"⟩⟩ :=
  runEvaluation_discards_detector_output [0] [[gtBoxA]] detectAlwaysOk (1/2) (1/2)
    (by decide) (by decide) (fun _ _ => rfl)

/-- Witness for C4 at a concrete matching instance. -/
theorem matchPredictions_tp_antitone_witness :
    tpCount (matchPredictions [boxA] [gtBoxA] (3/5)) ≤
      tpCount (matchPredictions [boxA] [gtBoxA] (2/5)) :=
  matchPredictions_tp_antitone [boxA] [gtBoxA] (2/5) (3/5) (by norm_num)

/-- Witness for C5 at a concrete sweep instance. -/
theorem sweep_recall_antitone_witness :
    (calculateOverallMetrics (filterByConfidence [boxA, boxALow] (7/10))
      [gtBoxA] (1/2)).«recall» ≤
    (calculateOverallMetrics (filterByConfidence [boxA, boxALow] (1/10))
      [gtBoxA] (1/2)).«recall» :=
  sweep_recall_antitone [boxA, boxALow] [gtBoxA] (1/2) (1/10) (7/10) (by norm_num)

/-- Witness for C3 at the spec's class-mismatch scenario. -/
theorem aggregate_no_overlap_all_zero_witness :
    (calculateClassMetrics [boxB] [gtBoxA] "B" (1/2)).precision = 0 ∧
    (calculateClassMetrics [boxB] [gtBoxA] "A" (1/2)).«recall» = 0 := by
  have hno : ∀ c, ¬(c ∈ ([boxB] : List BoundingBox).map (·.className) ∧
      c ∈ ([gtBoxA] : List GroundTruthBox).map (·.className)) := by
    intro c hc
    obtain ⟨h1, h2⟩ := hc
    simp [boxB] at h1
    simp [gtBoxA] at h2
    rw [h1] at h2
    exact absurd h2 (by decide)
  exact ⟨((aggregate_no_overlap_all_zero [boxB] [gtBoxA] (1/2) hno).1 "B").1,
         ((aggregate_no_overlap_all_zero [boxB] [gtBoxA] (1/2) hno).1 "A").2.1⟩

/-- Witness for C6 at a concrete matching instance. -/
theorem matchPredictions_one_to_one_witness :
    (referencedIndices (matchPredictions [boxA] [gtBoxA] (1/2))).Nodup ∧
    (calculateClassMetrics [boxA] [gtBoxA] "A" (1/2)).falseNegatives =
      (unreferencedCount
        (matchPredictions (([boxA] : List BoundingBox).filter (·.className = "A"))
          (([gtBoxA] : List GroundTruthBox).filter (·.className = "A")) (1/2))
        ((([gtBoxA] : List GroundTruthBox).filter (·.className = "A")).length) : ℚ) :=
  ⟨(matchPredictions_one_to_one [boxA] [gtBoxA] (1/2)).1,
   (matchPredictions_one_to_one [boxA] [gtBoxA] (1/2)).2.2 "A"⟩

lemma calculateIoU_boxA_gtBoxA : calculateIoU boxA.toRect gtBoxA.toRect = 1 := by
  have h1 : boxA.toRect = (⟨100, 100, 50, 50⟩ : Rect) := rfl
  have h2 : gtBoxA.toRect = (⟨100, 100, 50, 50⟩ : Rect) := rfl
  rw [h1, h2]
  exact calculateIoU_self _ (by norm_num) (by norm_num)

lemma findBest_boxA : findBest boxA [gtBoxA] ∅ = (1, some 0) := by
  have hiou := calculateIoU_boxA_gtBoxA
  simp only [findBest, findBestAux]
  rw [if_neg (by simp), if_neg (by simp [boxA, gtBoxA]),
    if_pos (by rw [hiou]; norm_num), hiou]

lemma matchPredictions_boxA :
    matchPredictions [boxA] [gtBoxA] (1/2) = [⟨boxA, some gtBoxA, some 0, 1, true⟩] := by
  unfold matchPredictions
  have hsort : sortByConfidenceDesc [boxA] = [boxA] := rfl
  rw [hsort]
  rw [matchFold_cons_correct [gtBoxA] (1/2) boxA [] ∅ 0 (by rw [findBest_boxA])
    (by rw [findBest_boxA]; norm_num)]
  simp [matchFold, findBest_boxA]

lemma calculateClassMetrics_boxA :
    calculateClassMetrics [boxA] [gtBoxA] "A" (1/2) = ⟨"A", 1, 0, 0, 1, 1, 1, 1, 1⟩ := by
  unfold calculateClassMetrics
  have hfp : ([boxA] : List BoundingBox).filter (·.className = "A") = [boxA] := by
    simp [boxA]
  have hfg : ([gtBoxA] : List GroundTruthBox).filter (·.className = "A") = [gtBoxA] := by
    simp [gtBoxA]
  rw [hfp, hfg]
  simp only [matchPredictions_boxA]
  simp [tpCount]
  norm_num

lemma overall_fields_boxA :
    (calculateOverallMetrics [boxA] [gtBoxA] (1/2)).precision = 1 ∧
    (calculateOverallMetrics [boxA] [gtBoxA] (1/2)).«recall» = 1 ∧
    (calculateOverallMetrics [boxA] [gtBoxA] (1/2)).f1Score = 1 := by
  have hclassNames : uniqueFirst ["A", "A"] = ["A"] := by
    simp [uniqueFirst, uniqueFirstAux]
  have hcn1 : boxA.className = "A" := rfl
  have hcn2 : gtBoxA.className = "A" := rfl
  refine ⟨?_, ?_, ?_⟩ <;>
  · simp [calculateOverallMetrics, hcn1, hcn2, hclassNames]
    rw [show (2⁻¹ : ℚ) = 1 / 2 from by norm_num, calculateClassMetrics_boxA]
    norm_num

lemma filterByConfidence_boxA (c : ℚ) (hc : c ≤ 9/10) :
    filterByConfidence [boxA] c = [boxA] := by
  simp [filterByConfidence, boxA, hc]

lemma curve_boxA :
    calculateMetricsAtThresholds [boxA] [gtBoxA] defaultThresholds (1/2) =
      defaultThresholds.map (fun c => ⟨c, 1, 1, 1⟩) := by
  unfold calculateMetricsAtThresholds
  apply List.map_congr_left
  intro c hc
  have hc9 : c ≤ 9/10 := by
    fin_cases hc <;> norm_num
  show (⟨c, (calculateOverallMetrics (filterByConfidence [boxA] c) [gtBoxA] (1/2)).precision,
    (calculateOverallMetrics (filterByConfidence [boxA] c) [gtBoxA] (1/2)).«recall»,
    (calculateOverallMetrics (filterByConfidence [boxA] c) [gtBoxA] (1/2)).f1Score⟩ :
      ThresholdMetrics) = ⟨c, 1, 1, 1⟩
  rw [filterByConfidence_boxA c hc9]
  obtain ⟨h1, h2, h3⟩ := overall_fields_boxA
  rw [h1, h2, h3]

lemma curve_f1_boxA (j : ℕ)
    (hj : j < (calculateMetricsAtThresholds [boxA] [gtBoxA] defaultThresholds (1/2)).length) :
    ((calculateMetricsAtThresholds [boxA] [gtBoxA] defaultThresholds (1/2)).get
      ⟨j, hj⟩).f1Score = 1 := by
  have h := List.get_of_eq curve_boxA ⟨j, hj⟩
  rw [h]
  simp

/-- Witness for C8: with a perfect high-confidence match the whole curve
has F1 = 1, and the first grid point 0.1 is returned. -/
theorem findOptimalThreshold_spec_witness :
    findOptimalThreshold [boxA] [gtBoxA] (1/2) = ⟨1/10, 1⟩ := by
  have hlen : 0 < (calculateMetricsAtThresholds [boxA] [gtBoxA]
      defaultThresholds (1/2)).length := by
    rw [curve_boxA]
    simp [defaultThresholds]
  have h := (findOptimalThreshold_spec [boxA] [gtBoxA] (1/2)).1 0 hlen
    (fun j hj => by rw [curve_f1_boxA j hj, curve_f1_boxA 0 hlen])
    (fun j hj => absurd hj (Nat.not_lt_zero j))
    (by rw [curve_f1_boxA 0 hlen]; norm_num)
  rw [h, curve_f1_boxA 0 hlen]
  have hget : ((calculateMetricsAtThresholds [boxA] [gtBoxA] defaultThresholds (1/2)).get
      ⟨0, hlen⟩).threshold = 1/10 := by
    have := List.get_of_eq curve_boxA ⟨0, hlen⟩
    rw [this]
    norm_num [defaultThresholds]
  rw [hget]
